import Mathlib

/-!
Verification of the AI-History ingestion/storage/attachment core.

This file shallowly embeds the Rust core of the repository
(`apps/desktop/src-tauri/src/db/mod.rs` and `http/mod.rs`) in Lean 4 and
settles the frozen claims about it.

Modelling conventions:
* Rust `String`/`&str` values are modelled as `List Char` (`Str` below);
  byte-sensitive operations (`len()`, slicing, UTF-8 hashing) go through an
  explicit UTF-8 encoder so that byte lengths are faithful.
* Rust `char::to_lowercase` is modelled by the ASCII mapping
  (`Char.toLower`); every string the claims touch is either ASCII or
  contains only characters that Unicode lowercasing leaves unchanged
  (e.g. CJK), so the two agree on all inputs considered here.
* The SQLite tables are modelled as lists of row records inside `DbState`;
  `INSERT` appends, `UPDATE ... WHERE` maps over rows, `DELETE ... WHERE`
  filters.
* `Uuid::new_v4()` and `now_iso()` are nondeterministic; operations take a
  fresh-id generator `fresh : Nat → Str` (consumed in call order, mirroring
  the order of the `Uuid::new_v4()` calls in the source) and a fixed
  timestamp `now : Str`.
* A Rust panic is modelled as `Option.none`.
-/

set_option maxRecDepth 4000

namespace AIHistory

/-- Strings are modelled as lists of characters. -/
abbrev Str := List Char

/-- Coerce a Lean string literal into the model's string type. -/
def str (s : String) : Str := s.data

/-- Rust `char::is_whitespace` (the Unicode White_Space property). -/
def rustIsWhitespace (c : Char) : Bool :=
  let n := c.toNat
  n == 0x09 || n == 0x0A || n == 0x0B || n == 0x0C || n == 0x0D || n == 0x20 ||
  n == 0x85 || n == 0xA0 || n == 0x1680 || (0x2000 ≤ n && n ≤ 0x200A) ||
  n == 0x2028 || n == 0x2029 || n == 0x202F || n == 0x205F || n == 0x3000

/-- Lowercase a string character-wise (ASCII mapping, see module comment). -/
def lowerStr (s : Str) : Str := s.map Char.toLower

/-- Rust `str::trim_start`. -/
def rustTrimStart (s : Str) : Str := s.dropWhile rustIsWhitespace

/-- Rust `str::trim_end`. -/
def rustTrimEnd (s : Str) : Str := (s.reverse.dropWhile rustIsWhitespace).reverse

/-- Rust `str::trim`. -/
def rustTrim (s : Str) : Str := rustTrimEnd (rustTrimStart s)

/-- Rust `str::trim_end_matches(c)`: strip every trailing occurrence of `c`. -/
def trimEndMatches (c : Char) (s : Str) : Str :=
  (s.reverse.dropWhile (fun x => x == c)).reverse

/-- Rust `str::trim_matches(pred)`: strip matching characters from both ends. -/
def trimMatchesPred (p : Char → Bool) (s : Str) : Str :=
  ((s.dropWhile p).reverse.dropWhile p).reverse

/-- Rust `str::trim_matches(c)` for a single character pattern. -/
def trimMatchesChar (c : Char) (s : Str) : Str :=
  trimMatchesPred (fun x => x == c) s

/-- Rust `str::starts_with` for string patterns. -/
def startsWith (pat s : Str) : Bool := pat.isPrefixOf s

/-- Substring containment, Rust `str::contains` for string patterns. -/
def containsSub (pat : Str) : Str → Bool
  | [] => pat.isPrefixOf []
  | c :: cs => pat.isPrefixOf (c :: cs) || containsSub pat cs

/-- Rust `str::eq_ignore_ascii_case`. -/
def eqIgnoreAsciiCase (a b : Str) : Bool := lowerStr a == lowerStr b

/-- Rust `split_inclusive('\n')`: segments keep their trailing newline. -/
def splitInclusiveNl (s : Str) : List Str :=
  s.foldr
    (fun c acc =>
      if c = '\n' then ['\n'] :: acc
      else
        match acc with
        | [] => [[c]]
        | l :: ls => (c :: l) :: ls)
    []

/-- Strip one trailing `"\n"` or `"\r\n"` from a segment (Rust `str::lines`). -/
def stripLineEnding (l : Str) : Str :=
  match l.reverse with
  | '\n' :: '\r' :: t => t.reverse
  | '\n' :: t => t.reverse
  | _ => l

/-- Rust `str::lines`. -/
def rustLines (s : Str) : List Str := (splitInclusiveNl s).map stripLineEnding

/-- Join lines with `'\n'` (Rust `Vec::join("\n")`). -/
def joinNl : List Str → Str
  | [] => []
  | [l] => l
  | l :: ls => l ++ '\n' :: joinNl ls

/-- UTF-8 byte length of one character (same as Rust `char::len_utf8`). -/
abbrev charLen (c : Char) : Nat := c.utf8Size

/-- UTF-8 byte length of a string (Rust `str::len`). -/
def strByteLen (s : Str) : Nat := (s.map charLen).sum

/-- UTF-8 encoding of one character as a byte list. -/
def utf8EncodeChar (c : Char) : List Nat :=
  let n := c.toNat
  if n < 0x80 then [n]
  else if n < 0x800 then
    [0xC0 + n / 0x40, 0x80 + n % 0x40]
  else if n < 0x10000 then
    [0xE0 + n / 0x1000, 0x80 + n / 0x40 % 0x40, 0x80 + n % 0x40]
  else
    [0xF0 + n / 0x40000, 0x80 + n / 0x1000 % 0x40, 0x80 + n / 0x40 % 0x40,
      0x80 + n % 0x40]

/-- UTF-8 encoding of a string (Rust `str::as_bytes`). -/
def utf8Bytes (s : Str) : List Nat := s.flatMap utf8EncodeChar

/-! ## `truncate_error` (db/mod.rs, lines 2519–2525)

```rust
fn truncate_error(error: &str) -> String {
    const MAX: usize = 300;
    if error.len() <= MAX {
        return error.to_string();
    }
    error[..MAX].to_string()
}
```

`error[..MAX]` is a byte-index slice; in Rust it panics when byte index
`MAX` is not a character boundary. `takeBytes s n` returns the prefix of
`s` occupying exactly `n` bytes when `n` lands on a character boundary and
`none` (the panic) otherwise. -/

/-- Take a prefix of exactly `n` UTF-8 bytes; `none` when `n` falls inside a
character (Rust byte slicing panic). -/
def takeBytes : Str → Nat → Option Str
  | _, 0 => some []
  | [], _ + 1 => none
  | c :: cs, n + 1 =>
    if charLen c ≤ n + 1 then (takeBytes cs (n + 1 - charLen c)).map (c :: ·)
    else none

/-- Model of `truncate_error`; `none` models the byte-slice panic. -/
def truncate_error (error : Str) : Option Str :=
  if strByteLen error ≤ 300 then some error
  else takeBytes error 300

/-! ## Relational state (schema from `migrate`, db/mod.rs lines 43–155) -/

/-- A row of the `folders` table. -/
structure Folder where
  id : Str
  name : Str
  parent_id : Option Str
  sort_order : Int
  created_at : Str
  updated_at : Str
deriving DecidableEq, Repr

/-- A row of the `conversations` table. -/
structure Conversation where
  id : Str
  source : Str
  source_conversation_id : Option Str
  folder_id : Option Str
  title : Str
  summary : Option Str
  created_at : Str
  updated_at : Str
  fingerprint : Str
  meta_json : Str
deriving DecidableEq, Repr

/-- A row of the `messages` table. -/
structure Message where
  id : Str
  conversation_id : Str
  seq : Int
  role : Str
  content_markdown : Str
  thought_markdown : Option Str
  model : Option Str
  timestamp : Option Str
  token_count : Option Int
deriving DecidableEq, Repr

/-- A row of the `messages_fts` full-text index. -/
structure MessagesFts where
  message_id : Str
  conversation_id : Str
  content_markdown : Str
deriving DecidableEq, Repr

/-- A row of the `attachments` table. -/
structure Attachment where
  id : Str
  message_id : Str
  conversation_id : Str
  kind : Str
  original_url : Str
  local_path : Option Str
  mime : Option Str
  size_bytes : Option Int
  sha256 : Option Str
  status : Str
  error : Option Str
  created_at : Str
deriving DecidableEq, Repr

/-- A row of the `imports` audit table. -/
structure ImportsRow where
  id : Str
  source : Str
  imported_count : Int
  skipped_count : Int
  conflict_count : Int
  created_at : Str
deriving DecidableEq, Repr

/-- The database state: one list of rows per table touched by the core. -/
structure DbState where
  folders : List Folder
  conversations : List Conversation
  messages : List Message
  messages_fts : List MessagesFts
  attachments : List Attachment
  imports : List ImportsRow
deriving DecidableEq, Repr

/-- The reserved folder id (`UNCATEGORIZED_FOLDER_ID`). -/
def uncategorizedFolderId : Str := str "uncategorized"

/-- Model of `ensure_system_folders` (db/mod.rs lines 157–196). -/
def ensure_system_folders (now : Str) (db : DbState) : DbState :=
  if db.folders.any (fun f => f.id == uncategorizedFolderId) then db
  else
    let sort_order : Int :=
      ((db.folders.filter (fun f => f.parent_id = none)).foldl
        (fun acc f => max acc f.sort_order) (-1)) + 1
    { db with
      folders := db.folders ++
        [{ id := uncategorizedFolderId, name := str "未分类", parent_id := none,
           sort_order := sort_order, created_at := now, updated_at := now }] }

/-- Model of `move_folder` (db/mod.rs lines 271–282); the second component is
the returned error, `none` on success. The reserved-id check precedes every
database access, so the error branch returns the state untouched. -/
def move_folder (now : Str) (db : DbState) (id : Str) (parent_id : Option Str) :
    DbState × Option Str :=
  if id = uncategorizedFolderId then (db, some (str "未分类文件夹不可移动"))
  else
    ({ db with
        folders := db.folders.map (fun f =>
          if f.id = id then { f with parent_id := parent_id, updated_at := now }
          else f) },
      none)

/-- Model of `delete_folder` (db/mod.rs lines 284–309). -/
def delete_folder (now : Str) (db : DbState) (id : Str) : DbState × Option Str :=
  if id = uncategorizedFolderId then (db, some (str "未分类文件夹不可删除"))
  else
    let db := ensure_system_folders now db
    let folders := db.folders.map (fun f =>
      if f.parent_id = some id then { f with parent_id := none, updated_at := now }
      else f)
    let conversations := db.conversations.map (fun c =>
      if c.folder_id = some id then
        { c with folder_id := some uncategorizedFolderId, updated_at := now }
      else c)
    let folders := folders.filter (fun f => f.id ≠ id)
    ({ db with folders := folders, conversations := conversations }, none)

/-! ## SHA-256 (the `sha2` crate as used by `compute_fingerprint` and the
cache worker), over `Nat` bytes with explicit `% 2^32` arithmetic. -/

/-- 32-bit right rotation (argument below `2^32`). -/
def rotr32 (x n : Nat) : Nat := ((x >>> n) ||| (x <<< (32 - n))) % 4294967296

/-- SHA-256 round constants. -/
def shaK : List Nat :=
  [ 1116352408, 1899447441, 3049323471, 3921009573, 961987163, 1508970993,
   2453635748, 2870763221, 3624381080, 310598401, 607225278, 1426881987,
   1925078388, 2162078206, 2614888103, 3248222580, 3835390401, 4022224774,
   264347078, 604807628, 770255983, 1249150122, 1555081692, 1996064986,
   2554220882, 2821834349, 2952996808, 3210313671, 3336571891, 3584528711,
   113926993, 338241895, 666307205, 773529912, 1294757372, 1396182291,
   1695183700, 1986661051, 2177026350, 2456956037, 2730485921, 2820302411,
   3259730800, 3345764771, 3516065817, 3600352804, 4094571909, 275423344,
   430227734, 506948616, 659060556, 883997877, 958139571, 1322822218,
   1537002063, 1747873779, 1955562222, 2024104815, 2227730452, 2361852424,
   2428436474, 2756734187, 3204031479, 3329325298]

/-- SHA-256 initial hash state. -/
def shaH0 : List Nat :=
  [ 1779033703, 3144134277, 1013904242, 2773480762, 1359893119, 2600822924,
   528734635, 1541459225]

/-- SHA-256 message padding to a multiple of 64 bytes. -/
def shaPad (msg : List Nat) : List Nat :=
  let L := msg.length
  let k := (119 - L % 64) % 64
  let bitLen := L * 8
  msg ++ 0x80 :: List.replicate k 0 ++
    [bitLen / 0x100000000000000 % 256, bitLen / 0x1000000000000 % 256,
     bitLen / 0x10000000000 % 256, bitLen / 0x100000000 % 256,
     bitLen / 0x1000000 % 256, bitLen / 0x10000 % 256, bitLen / 0x100 % 256,
     bitLen % 256]

/-- Group bytes into big-endian 32-bit words. -/
def bytesToWords : List Nat → List Nat
  | b0 :: b1 :: b2 :: b3 :: rest =>
    (b0 * 0x1000000 + b1 * 0x10000 + b2 * 0x100 + b3) :: bytesToWords rest
  | _ => []

/-- Split a byte list into 64-byte chunks. -/
def chunks64 : List Nat → List (List Nat)
  | [] => []
  | c :: cs => ((c :: cs).take 64) :: chunks64 ((c :: cs).drop 64)
  termination_by l => l.length
  decreasing_by simp [List.length_drop]; omega

/-- SHA-256 σ0. -/
def smallSigma0 (x : Nat) : Nat := rotr32 x 7 ^^^ rotr32 x 18 ^^^ (x >>> 3)

/-- SHA-256 σ1. -/
def smallSigma1 (x : Nat) : Nat := rotr32 x 17 ^^^ rotr32 x 19 ^^^ (x >>> 10)

/-- SHA-256 Σ0. -/
def bigSigma0 (x : Nat) : Nat := rotr32 x 2 ^^^ rotr32 x 13 ^^^ rotr32 x 22

/-- SHA-256 Σ1. -/
def bigSigma1 (x : Nat) : Nat := rotr32 x 6 ^^^ rotr32 x 11 ^^^ rotr32 x 25

/-- SHA-256 choice function (32-bit complement via xor with the mask). -/
def chNat (e f g : Nat) : Nat := (e &&& f) ^^^ ((e ^^^ 0xffffffff) &&& g)

/-- SHA-256 majority function. -/
def majNat (a b c : Nat) : Nat := (a &&& b) ^^^ (a &&& c) ^^^ (b &&& c)

/-- Extend 16 schedule words to 64. -/
def extendSchedule (w0 : List Nat) : List Nat :=
  (List.range 48).foldl
    (fun w _ =>
      w ++ [(smallSigma1 (w.getD (w.length - 2) 0) + w.getD (w.length - 7) 0 +
             smallSigma0 (w.getD (w.length - 15) 0) + w.getD (w.length - 16) 0)
              % 4294967296])
    w0

/-- One SHA-256 compression over a 64-byte chunk. -/
def compressChunk (H : List Nat) (chunk : List Nat) : List Nat :=
  let w := extendSchedule (bytesToWords chunk)
  let st0 : Nat × Nat × Nat × Nat × Nat × Nat × Nat × Nat :=
    (H.getD 0 0, H.getD 1 0, H.getD 2 0, H.getD 3 0, H.getD 4 0, H.getD 5 0,
     H.getD 6 0, H.getD 7 0)
  let stZ := (List.range 64).foldl
    (fun st i =>
      match st with
      | (a, b, c, d, e, f, g, h) =>
        let t1 := (h + bigSigma1 e + chNat e f g + shaK.getD i 0 + w.getD i 0)
                    % 4294967296
        let t2 := (bigSigma0 a + majNat a b c) % 4294967296
        ((t1 + t2) % 4294967296, a, b, c, (d + t1) % 4294967296, e, f, g))
    st0
  match stZ with
  | (a, b, c, d, e, f, g, h) =>
    [(H.getD 0 0 + a) % 4294967296, (H.getD 1 0 + b) % 4294967296,
     (H.getD 2 0 + c) % 4294967296, (H.getD 3 0 + d) % 4294967296,
     (H.getD 4 0 + e) % 4294967296, (H.getD 5 0 + f) % 4294967296,
     (H.getD 6 0 + g) % 4294967296, (H.getD 7 0 + h) % 4294967296]

/-- SHA-256 digest of a byte list, as 32 bytes. -/
def sha256Bytes (msg : List Nat) : List Nat :=
  let Hf := (chunks64 (shaPad msg)).foldl compressChunk shaH0
  Hf.flatMap (fun w => [w / 0x1000000 % 256, w / 0x10000 % 256, w / 0x100 % 256,
    w % 256])

/-- Lowercase hex digit. -/
def hexDigitChar (n : Nat) : Char :=
  if n < 10 then Char.ofNat (48 + n) else Char.ofNat (87 + n)

/-- Two-digit lowercase hex of a byte. -/
def hexByte (b : Nat) : Str := [hexDigitChar (b / 16), hexDigitChar (b % 16)]

/-- Lowercase hex string of a byte list (Rust `format!("{:x}", digest)`). -/
def hexDigest (bytes : List Nat) : Str := bytes.flatMap hexByte

/-- SHA-256 of a string's UTF-8 bytes, as a lowercase hex string. -/
def sha256Hex (s : Str) : Str := hexDigest (sha256Bytes (utf8Bytes s))

/-! ## URL classifier (db/mod.rs lines 2092–2444)

`reqwest::Url::parse` is modelled by direct syntactic checks: scheme
recognition is prefix matching and `to_string()` is the identity. This
agrees with the source on URLs that are already in the parser's canonical
form (lowercase scheme and host, non-empty path), which covers every URL
the claims and witnesses use. -/

/-- `FILE_LIKE_EXTENSIONS` (db/mod.rs lines 2092–2095). -/
def fileLikeExtensions : List Str :=
  [str "pdf", str "doc", str "docx", str "ppt", str "pptx", str "xls",
   str "xlsx", str "csv", str "txt", str "zip", str "rar", str "7z",
   str "json", str "md", str "png", str "jpg", str "jpeg", str "webp",
   str "gif", str "bmp", str "svg", str "mp3", str "mp4", str "wav"]

/-- `SUPPORTED_FILE_EXTENSIONS` (db/mod.rs lines 2096–2107). -/
def supportedFileExtensions : List Str :=
  [str "doc", str "docx", str "ppt", str "pptx", str "xls", str "xlsx",
   str "csv", str "tsv", str "md", str "txt"]

/-- Segment after the last `'.'` (Rust `rsplit('.').next()`), the whole
string when there is no dot. -/
def afterLastDot (s : Str) : Str := (s.reverse.takeWhile (fun c => c ≠ '.')).reverse

/-- Model of `extract_url_extension` (db/mod.rs lines 2109–2114). -/
def extract_url_extension (url : Str) : Str :=
  let lower := lowerStr url
  let clean := lower.takeWhile (fun c => c ≠ '?')
  let clean := clean.takeWhile (fun c => c ≠ '#')
  afterLastDot clean

/-- Model of `looks_like_pdf_url` (db/mod.rs lines 2116–2124). -/
def looks_like_pdf_url (url : Str) : Bool :=
  let lower := lowerStr url
  if startsWith (str "data:application/pdf") lower then true
  else
    containsSub (str ".pdf") lower || containsSub (str "format=pdf") lower ||
      containsSub (str "mime=application/pdf") lower

/-- Model of `looks_like_cloud_drive_file_url` (db/mod.rs lines 2126–2133). -/
def looks_like_cloud_drive_file_url (url : Str) : Bool :=
  let lower := lowerStr url
  containsSub (str "drive.google.com/file/") lower ||
  containsSub (str "drive.google.com/open") lower ||
  containsSub (str "docs.google.com/document/") lower ||
  containsSub (str "docs.google.com/presentation/") lower ||
  containsSub (str "docs.google.com/spreadsheets/") lower

/-- Model of `is_data_url` (db/mod.rs lines 2135–2137). -/
def is_data_url (url : Str) : Bool := startsWith (str "data:") (lowerStr url)

/-- Model of `is_virtual_attachment_url` (db/mod.rs lines 2293–2295). -/
def is_virtual_attachment_url (url : Str) : Bool :=
  startsWith (str "aihistory://upload/") (lowerStr url)

/-- Model of `is_http_or_https_url` (db/mod.rs lines 2297–2302). -/
def is_http_or_https_url (url : Str) : Bool :=
  startsWith (str "http://") url || startsWith (str "https://") url

/-- Model of `looks_like_image_url` (db/mod.rs lines 2304–2325). -/
def looks_like_image_url (url : Str) : Bool :=
  let lower := lowerStr url
  if startsWith (str "data:image/") lower then true
  else if
    containsSub (str "format=png") lower || containsSub (str "format=jpg") lower ||
    containsSub (str "format=jpeg") lower || containsSub (str "format=webp") lower ||
    containsSub (str "format=gif") lower || containsSub (str "format=bmp") lower ||
    containsSub (str "format=svg") lower || containsSub (str "mime=image/") lower
  then true
  else
    [str "png", str "jpg", str "jpeg", str "webp", str "gif", str "bmp",
     str "svg"].any (fun e => e == extract_url_extension url)

/-- Model of `looks_like_supported_document_url` (db/mod.rs lines 2327–2343). -/
def looks_like_supported_document_url (url : Str) : Bool :=
  let ext := extract_url_extension url
  if supportedFileExtensions.any (fun c => c == ext) then true
  else
    let lower := lowerStr url
    supportedFileExtensions.any (fun c =>
      containsSub (str "." ++ c) lower ||
      containsSub (str "filename=." ++ c) lower ||
      containsSub (str "filename=" ++ c) lower ||
      containsSub (str "filename%3d." ++ c) lower)

/-- Model of `infer_attachment_mime` (db/mod.rs lines 2345–2385). -/
def infer_attachment_mime (url : Str) : Option Str :=
  let dataMime : Option Str :=
    if startsWith (str "data:") url then
      let meta := url.drop 5
      let m := rustTrim ((meta.takeWhile (fun c => c ≠ ',')).takeWhile
        (fun c => c ≠ ';'))
      if m = [] then none else some (lowerStr m)
    else none
  match dataMime with
  | some m => some m
  | none =>
    if looks_like_pdf_url url then some (str "application/pdf")
    else
      let ext := extract_url_extension url
      if ext = str "png" then some (str "image/png")
      else if ext = str "jpg" ∨ ext = str "jpeg" then some (str "image/jpeg")
      else if ext = str "webp" then some (str "image/webp")
      else if ext = str "gif" then some (str "image/gif")
      else if ext = str "bmp" then some (str "image/bmp")
      else if ext = str "svg" then some (str "image/svg+xml")
      else if ext = str "md" then some (str "text/markdown")
      else if ext = str "txt" then some (str "text/plain")
      else if ext = str "csv" then some (str "text/csv")
      else if ext = str "tsv" then some (str "text/tab-separated-values")
      else if ext = str "json" then some (str "application/json")
      else if ext = str "doc" then some (str "application/msword")
      else if ext = str "docx" then
        some (str "application/vnd.openxmlformats-officedocument.wordprocessingml.document")
      else if ext = str "ppt" then some (str "application/vnd.ms-powerpoint")
      else if ext = str "pptx" then
        some (str "application/vnd.openxmlformats-officedocument.presentationml.presentation")
      else if ext = str "xls" then some (str "application/vnd.ms-excel")
      else if ext = str "xlsx" then
        some (str "application/vnd.openxmlformats-officedocument.spreadsheetml.sheet")
      else none

/-- Model of `looks_like_file_url` (db/mod.rs lines 2387–2418). -/
def looks_like_file_url (url : Str) : Bool :=
  let lower := lowerStr url
  if is_data_url url then true
  else if is_virtual_attachment_url url then true
  else if containsSub (str "googleusercontent.com/gg/") lower then true
  else if looks_like_cloud_drive_file_url url then true
  else if
    containsSub (str "/backend-api/files/") lower ||
    containsSub (str "/backend-api/estuary/content") lower ||
    containsSub (str "/api/files/") lower || containsSub (str "/files/") lower
  then true
  else if
    containsSub (str "download=") lower || containsSub (str "filename=") lower ||
    containsSub (str "attachment=") lower
  then true
  else
    let ext := extract_url_extension url
    if looks_like_image_url url || looks_like_pdf_url url then true
    else fileLikeExtensions.any (fun c => c == ext)

/-- Host of a URL in canonical `scheme://host/…` shape, `none` when the text
has no `"://"` (the model's stand-in for a parse failure). -/
def hostOf (url : Str) : Option Str :=
  match url.dropWhile (fun c => c ≠ ':') with
  | ':' :: '/' :: '/' :: rest =>
    some (rest.takeWhile (fun c => c ≠ '/' ∧ c ≠ '?' ∧ c ≠ '#'))
  | _ => none

/-- Model of `is_navigation_url` (db/mod.rs lines 2420–2444). -/
def is_navigation_url (url : Str) : Bool :=
  match hostOf url with
  | none => false
  | some host =>
    let lower := lowerStr url
    if containsSub (str "/backend-api/files/") lower ||
       containsSub (str "/backend-api/estuary/content") lower ||
       containsSub (str "/api/files/") lower ||
       containsSub (str "/files/") lower ||
       containsSub (str "/prompts/") lower ||
       looks_like_file_url url || looks_like_image_url url ||
       looks_like_pdf_url url
    then false
    else
      let host := lowerStr host
      containsSub (str "gemini.google.com") host ||
      containsSub (str "bard.google.com") host ||
      containsSub (str "chatgpt.com") host ||
      containsSub (str "aistudio.google.com") host

/-- Model of `normalize_attachment_kind` (db/mod.rs lines 1529–1538). -/
def normalize_attachment_kind (raw : Str) : Str :=
  let lower := lowerStr raw
  if containsSub (str "pdf") lower then str "pdf"
  else if containsSub (str "image") lower || containsSub (str "img") lower then
    str "image"
  else str "file"

/-- Model of `classify_attachment_kind` (db/mod.rs lines 1540–1578). -/
def classify_attachment_kind (raw_kind url : Str) (mime : Option Str) : Str :=
  let normalized := normalize_attachment_kind raw_kind
  if normalized = str "image" ∧
      (looks_like_image_url url ||
        (mime.map (fun v => startsWith (str "image/") (lowerStr v))).getD false)
  then str "image"
  else if normalized = str "pdf" ∧
      (looks_like_pdf_url url ||
        (mime.map (fun v => containsSub (str "pdf") (lowerStr v))).getD false)
  then str "pdf"
  else
    match mime with
    | some raw_mime =>
      let lower_mime := lowerStr raw_mime
      if containsSub (str "pdf") lower_mime then str "pdf"
      else if startsWith (str "image/") lower_mime then str "image"
      else if looks_like_image_url url then str "image"
      else if looks_like_pdf_url url then str "pdf"
      else str "file"
    | none =>
      if looks_like_image_url url then str "image"
      else if looks_like_pdf_url url then str "pdf"
      else str "file"

/-- Model of `normalize_attachment_url` (db/mod.rs lines 1580–1597). -/
def normalize_attachment_url (url : Str) : Str :=
  let trimmed := trimMatchesChar '\'' (trimMatchesChar '"' (rustTrim url))
  if trimmed = [] then []
  else if startsWith (str "http://") trimmed ∨ startsWith (str "https://") trimmed ∨
      startsWith (str "aihistory://") trimmed ∨ startsWith (str "data:") trimmed
  then trimmed
  else []

/-! ## Input models (models.rs) -/

/-- `NormalizedAttachment` (models.rs lines 78–85). -/
structure NormalizedAttachment where
  kind : Str
  original_url : Str
  mime : Option Str
  status : Option Str
deriving DecidableEq, Repr

/-- `NormalizedTurn` (models.rs lines 87–97). -/
structure NormalizedTurn where
  role : Str
  content_markdown : Str
  thought_markdown : Option Str
  attachments : Option (List NormalizedAttachment)
  model : Option Str
  timestamp : Option Str
  token_count : Option Int
deriving DecidableEq, Repr

/-- `NormalizedConversation` (models.rs lines 99–110); `meta` carries the
serialized JSON value. -/
structure NormalizedConversation where
  source : Str
  source_conversation_id : Option Str
  title : Str
  summary : Option Str
  created_at : Option Str
  updated_at : Option Str
  turns : List NormalizedTurn
  meta : Option Str
deriving DecidableEq, Repr

/-- `ImportBatch` (models.rs lines 112–118). -/
structure ImportBatch where
  conversations : List NormalizedConversation
  strategy : Str
  folder_id : Option Str
deriving DecidableEq, Repr

/-- `ImportResult` (models.rs lines 120–126). -/
structure ImportResult where
  imported : Int
  skipped : Int
  conflicts : Int
deriving DecidableEq, Repr

/-- `LiveCaptureRequest` (models.rs lines 142–151). -/
structure LiveCaptureRequest where
  source : Str
  page_url : Str
  title : Str
  turns : List NormalizedTurn
  captured_at : Str
  version : Str
deriving DecidableEq, Repr

/-! ## Fingerprinter (db/mod.rs lines 1502–1523)

The `HashSet<String>` of member hashes is modelled by `List.dedup` (its
iteration order is irrelevant because the collected vector is sorted
before being absorbed); `Vec::sort` on `String` is byte-lexicographic,
which on UTF-8 strings coincides with the character-lexicographic
`lexLe`. -/

/-- Byte-lexicographic string order (Rust `Ord` for `String`): on UTF-8
strings byte order coincides with the lexicographic codepoint order on
`List Char`. -/
def lexLe (a b : Str) : Bool := decide (a ≤ b)

/-- Model of `compute_fingerprint` (db/mod.rs lines 1502–1523). -/
def compute_fingerprint (conv : NormalizedConversation) : Str :=
  let message_hashes :=
    (conv.turns.map (fun t =>
      hexDigest (sha256Bytes (utf8Bytes t.role ++ utf8Bytes t.content_markdown)))).dedup
  let hashes_sorted := List.insertionSort (fun a b => lexLe a b = true)
    message_hashes
  hexDigest (sha256Bytes
    (utf8Bytes conv.source ++ utf8Bytes (conv.source_conversation_id.getD []) ++
      (hashes_sorted.map utf8Bytes).flatten))

/-! ## Attachment row operations

Row builders mirror the three `INSERT INTO attachments` statements of
`import_files` (db/mod.rs lines 885–906, 920–937, 948–965) and the
`UPDATE` statements of the cache worker (lines 1311–1346). -/

/-- The attachment row persisted for a declared input attachment
(db/mod.rs lines 879–906): `status` is the declared status defaulted to
`remote_only`; `local_path`, `size_bytes`, `sha256` and `error` are NULL. -/
def declared_attachment_row (id msg_id conv_id : Str) (normalized_url : Str)
    (a : NormalizedAttachment) (now : Str) : Attachment :=
  { id := id, message_id := msg_id, conversation_id := conv_id,
    kind := classify_attachment_kind a.kind normalized_url a.mime,
    original_url := normalized_url, local_path := none,
    mime := a.mime.orElse (fun _ => infer_attachment_mime normalized_url),
    size_bytes := none, sha256 := none,
    status := a.status.getD (str "remote_only"), error := none,
    created_at := now }

/-- The attachment row persisted for an extracted (inline or named-file)
attachment (db/mod.rs lines 920–937 and 948–965): status is the literal
`'remote_only'`. -/
def extracted_attachment_row (id msg_id conv_id kind url : Str)
    (mime : Option Str) (now : Str) : Attachment :=
  { id := id, message_id := msg_id, conversation_id := conv_id, kind := kind,
    original_url := url, local_path := none, mime := mime, size_bytes := none,
    sha256 := none, status := str "remote_only", error := none,
    created_at := now }

/-- Model of `mark_attachment_failed` (db/mod.rs lines 1311–1319); `none`
when `truncate_error` panics, in which case no row is written. -/
def mark_attachment_failed (a : Attachment) (error : Str) : Option Attachment :=
  (truncate_error error).map fun e =>
    { a with status := str "failed", error := some e }

/-- Model of `mark_attachment_cached` (db/mod.rs lines 1321–1336). -/
def mark_attachment_cached (a : Attachment) (local_path : Str)
    (mime : Option Str) (size_bytes : Int) (sha : Str) : Attachment :=
  { a with
      status := str "cached",
      local_path := some local_path,
      mime := mime,
      size_bytes := some size_bytes,
      sha256 := some sha,
      error := none }

/-- Model of `update_attachment_kind` (db/mod.rs lines 1338–1346). -/
def update_attachment_kind (a : Attachment) (kind : Str) : Attachment :=
  { a with kind := kind }

/-- The per-row body of `promote_attachment_kinds` (db/mod.rs lines
539–589): rows are selected with `WHERE kind = 'file'`, re-classified with
raw kind `"file"`, and updated only when the new kind is image or pdf
(`mime` via `COALESCE(new, old)`). -/
def promote_row (a : Attachment) : Attachment :=
  if a.kind = str "file" then
    if normalize_attachment_url a.original_url = [] then a
    else if
      classify_attachment_kind (str "file")
        (normalize_attachment_url a.original_url) a.mime = str "image" ∨
      classify_attachment_kind (str "file")
        (normalize_attachment_url a.original_url) a.mime = str "pdf"
    then
      { a with
          kind := classify_attachment_kind (str "file")
            (normalize_attachment_url a.original_url) a.mime,
          mime := a.mime.orElse (fun _ =>
            infer_attachment_mime (normalize_attachment_url a.original_url)) }
    else a
  else a

/-- Model of `promote_attachment_kinds` over the attachments table. -/
def promote_attachment_kinds (conversation_id : Str)
    (rows : List Attachment) : List Attachment :=
  rows.map (fun a =>
    if a.conversation_id = conversation_id then promote_row a else a)

/-- The cache worker's common store step after a successful HTTP fetch
(db/mod.rs lines 1263–1305): choose the MIME as `header_mime.or(mime_hint)`
(the hint is the row's stored `mime`), mark the row cached with the byte
count and SHA-256 hex digest, then re-classify and overwrite the kind
whenever the re-classification differs from the stored kind. `local_path`
abstracts the content-addressed asset filename. -/
def cache_worker_store_step (a : Attachment) (normalized_url : Str)
    (header_mime : Option Str) (bytes : List Nat) (local_path : Str) :
    Attachment :=
  let current_kind := normalize_attachment_kind a.kind
  let sha := hexDigest (sha256Bytes bytes)
  let mime := header_mime.orElse (fun _ => a.mime)
  let final_kind := classify_attachment_kind current_kind normalized_url mime
  let cached := mark_attachment_cached a local_path mime
    (Int.ofNat bytes.length) sha
  if final_kind ≠ current_kind then update_attachment_kind cached final_kind
  else cached

/-! ## Markdown extractor (db/mod.rs lines 1844–2090)

The Rust code walks the text with byte-index cursors (`find`, range
slices); the model works with the corresponding suffixes and character
indices, which coincide because every pattern searched for is ASCII. -/

/-- Suffix of `s` starting at the first occurrence of `pat` (Rust
`find` + range slice from the match). -/
def find_from (pat : Str) : Str → Option Str
  | [] => if pat.isPrefixOf [] then some [] else none
  | c :: cs => if pat.isPrefixOf (c :: cs) then some (c :: cs) else find_from pat cs

theorem find_from_length_le (pat : Str) :
    ∀ {s t : Str}, find_from pat s = some t → t.length ≤ s.length := by
  intro s
  induction s with
  | nil =>
    intro t h
    simp only [find_from] at h
    split at h
    · cases h; exact Nat.le_refl _
    · cases h
  | cons c cs ih =>
    intro t h
    simp only [find_from] at h
    split at h
    · cases h; exact Nat.le_refl _
    · exact Nat.le_trans (ih h) (Nat.le_succ _)

theorem find_from_isPrefix (pat : Str) :
    ∀ {s t : Str}, find_from pat s = some t → pat.isPrefixOf t = true := by
  intro s
  induction s with
  | nil =>
    intro t h
    simp only [find_from] at h
    split at h
    · cases h; assumption
    · cases h
  | cons c cs ih =>
    intro t h
    simp only [find_from] at h
    split at h
    · cases h; assumption
    · exact ih h

/-- Split at the first occurrence of `pat`: the part before the match and
the part after it (Rust `find` + the two range slices). -/
def split_at_seq (pat : Str) : Str → Option (Str × Str)
  | [] => if pat.isPrefixOf [] then some ([], []) else none
  | c :: cs =>
    if pat.isPrefixOf (c :: cs) then some ([], (c :: cs).drop pat.length)
    else
      match split_at_seq pat cs with
      | none => none
      | some (b, a) => some (c :: b, a)

theorem split_at_seq_length_lt (pat : Str) (hpat : pat ≠ []) :
    ∀ {s b a : Str}, split_at_seq pat s = some (b, a) → a.length < s.length := by
  intro s
  induction s with
  | nil =>
    intro b a h
    simp only [split_at_seq] at h
    split at h
    · rename_i hpre
      cases pat with
      | nil => exact absurd rfl hpat
      | cons p ps => simp [List.isPrefixOf] at hpre
    · cases h
  | cons c cs ih =>
    intro b a h
    simp only [split_at_seq] at h
    split at h
    · rename_i hpre
      cases h
      have hlen : 1 ≤ pat.length := by
        cases pat with
        | nil => exact absurd rfl hpat
        | cons p ps => simp
      simp only [List.length_drop, List.length_cons]
      omega
    · revert h
      split
      · intro h; cases h
      · rename_i b' a' heq
        intro h
        cases h
        exact Nat.lt_trans (ih heq) (Nat.lt_succ_self _)

/-- Character index of the first occurrence of `pat` in `s`. -/
def find_index_from (pat : Str) : Str → Option Nat
  | [] => if pat.isPrefixOf [] then some 0 else none
  | c :: cs =>
    if pat.isPrefixOf (c :: cs) then some 0
    else (find_index_from pat cs).map (· + 1)

theorem find_index_from_bound (pat : Str) :
    ∀ {s : Str} {i : Nat}, find_index_from pat s = some i →
      i + pat.length ≤ s.length := by
  intro s
  induction s with
  | nil =>
    intro i h
    simp only [find_index_from] at h
    split at h
    · rename_i hpre
      cases h
      have := (List.isPrefixOf_iff_prefix.mp hpre).length_le
      simpa using this
    · cases h
  | cons c cs ih =>
    intro i h
    simp only [find_index_from] at h
    split at h
    · rename_i hpre
      cases h
      have := (List.isPrefixOf_iff_prefix.mp hpre).length_le
      simpa using this
    · rcases Option.map_eq_some'.mp h with ⟨j, hj, rfl⟩
      have := ih hj
      simp only [List.length_cons]
      omega

/-- Rust `str::split_whitespace`, by fuel-bounded recursion (each step
consumes at least one character, so `s.length` steps suffice; the fuel
makes the definition structurally recursive and kernel-reducible). -/
def splitWhitespaceAux : Nat → Str → List Str
  | 0, _ => []
  | _ + 1, [] => []
  | fuel + 1, c :: cs =>
    if rustIsWhitespace c then splitWhitespaceAux fuel cs
    else
      (c :: cs.takeWhile (fun x => ¬ rustIsWhitespace x)) ::
        splitWhitespaceAux fuel (cs.dropWhile (fun x => ¬ rustIsWhitespace x))

/-- Rust `str::split_whitespace`. -/
def splitWhitespaceRust (s : Str) : List Str := splitWhitespaceAux s.length s

/-- Phase 1 of `extract_inline_attachments` (db/mod.rs lines 1848–1865):
markdown image syntax `![…](URL)`. Each iteration consumes at least one
character of the cursor, so `cursor.length + 1` fuel suffices. -/
def inline_image_aux (fuel : Nat) (seen : List Str)
    (out : List (Str × Str × Option Str)) (cursor : Str) :
    List Str × List (Str × Str × Option Str) :=
  match fuel with
  | 0 => (seen, out)
  | fuel + 1 =>
    match find_from (str "![") cursor with
    | none => (seen, out)
    | some rest =>
      match find_from ['('] rest with
      | none => (seen, out)
      | some r1 =>
        match split_at_seq [')'] (r1.drop 1) with
        | none => (seen, out)
        | some (before, after) =>
          let url := normalize_attachment_url before
          if url ≠ [] ∧ url ∉ seen then
            inline_image_aux fuel (url :: seen)
              (out ++ [(str "image", url, infer_attachment_mime url)]) after
          else inline_image_aux fuel seen out after

/-- Phase 1 entry point. -/
def inline_image_pass (seen : List Str) (out : List (Str × Str × Option Str))
    (cursor : Str) : List Str × List (Str × Str × Option Str) :=
  inline_image_aux (cursor.length + 1) seen out cursor

/-- Phase 2 of `extract_inline_attachments` (db/mod.rs lines 1867–1913):
markdown link syntax `[label](URL)` with label/URL based classification. -/
def inline_link_aux (fuel : Nat) (seen : List Str)
    (out : List (Str × Str × Option Str)) (cursor : Str) :
    List Str × List (Str × Str × Option Str) :=
  match fuel with
  | 0 => (seen, out)
  | fuel + 1 =>
    match find_from ['['] cursor with
    | none => (seen, out)
    | some rest =>
      match split_at_seq (str "](") rest with
      | none => (seen, out)
      | some (before, rest2) =>
        match split_at_seq [')'] rest2 with
        | none => (seen, out)
        | some (urlpart, after) =>
          let url := normalize_attachment_url urlpart
          if url = [] then inline_link_aux fuel seen out after
          else if is_navigation_url url then inline_link_aux fuel seen out after
          else
            let lower_label := lowerStr (before.drop 1)
            let kind : Option Str :=
              if containsSub (str "pdf") lower_label || looks_like_pdf_url url then
                some (str "pdf")
              else if containsSub (str "image") lower_label ||
                  containsSub (str "图片") lower_label ||
                  looks_like_image_url url then
                some (str "image")
              else if looks_like_file_url url then some (str "file")
              else none
            match kind with
            | none => inline_link_aux fuel seen out after
            | some k =>
              if k = str "file" ∧ ¬ looks_like_supported_document_url url ∧
                  ¬ looks_like_cloud_drive_file_url url then
                inline_link_aux fuel seen out after
              else if url ∉ seen then
                inline_link_aux fuel (url :: seen)
                  (out ++ [(k, url, infer_attachment_mime url)]) after
              else inline_link_aux fuel seen out after

/-- Phase 2 entry point. -/
def inline_link_pass (seen : List Str) (out : List (Str × Str × Option Str))
    (cursor : Str) : List Str × List (Str × Str × Option Str) :=
  inline_link_aux (cursor.length + 1) seen out cursor

/-- Phase 3 of `extract_inline_attachments` (db/mod.rs lines 1915–1939):
bare whitespace-delimited URLs with surrounding punctuation stripped. -/
def bare_url_pass (seen : List Str) (out : List (Str × Str × Option Str)) :
    List Str → List Str × List (Str × Str × Option Str)
  | [] => (seen, out)
  | raw :: toks =>
    let trimmed := trimMatchesPred (fun ch =>
      ch == '(' || ch == ')' || ch == '[' || ch == ']' || ch == '<' ||
      ch == '>' || ch == '"' || ch == '\'' || ch == ',' || ch == ';') raw
    if ¬ (startsWith (str "http://") trimmed || startsWith (str "https://") trimmed)
    then bare_url_pass seen out toks
    else
      let url := normalize_attachment_url trimmed
      if url = [] ∨ is_navigation_url url = true ∨ url ∈ seen then
        bare_url_pass seen out toks
      else if looks_like_pdf_url url then
        bare_url_pass (url :: seen)
          (out ++ [(str "pdf", url, infer_attachment_mime url)]) toks
      else if looks_like_image_url url then
        bare_url_pass (url :: seen)
          (out ++ [(str "image", url, infer_attachment_mime url)]) toks
      else if looks_like_supported_document_url url ||
          looks_like_cloud_drive_file_url url then
        bare_url_pass (url :: seen)
          (out ++ [(str "file", url, infer_attachment_mime url)]) toks
      else bare_url_pass seen out toks

/-- Model of `extract_inline_attachments` (db/mod.rs lines 1844–1942): the
three passes share one seen-URL set and append in order. -/
def extract_inline_attachments (markdown : Str) : List (Str × Str × Option Str) :=
  let s1 := inline_image_pass [] [] markdown
  let s2 := inline_link_pass s1.1 s1.2 markdown
  (bare_url_pass s2.1 s2.2 (splitWhitespaceRust markdown)).2

/-- Model of `is_filename_boundary` (db/mod.rs lines 2045–2073). -/
def is_filename_boundary (ch : Char) : Bool :=
  rustIsWhitespace ch ||
  ch == '"' || ch == '\'' || ch == Char.ofNat 96 || ch == '(' || ch == ')' ||
  ch == '[' || ch == ']' || ch == Char.ofNat 123 || ch == Char.ofNat 125 ||
  ch == '<' || ch == '>' || ch == ',' || ch == ';' || ch == ':' || ch == '!' ||
  ch == '?' || ch == '，' || ch == '。' || ch == '；' || ch == '：' ||
  ch == '！' || ch == '？' || ch == '|' || ch == '/' || ch == '\\'

/-- The trim set applied to a filename candidate (db/mod.rs lines
2015–2023). -/
def candidateTrimChar (ch : Char) : Bool :=
  rustIsWhitespace ch ||
  ch == '"' || ch == '\'' || ch == Char.ofNat 96 || ch == '(' || ch == ')' ||
  ch == '[' || ch == ']' || ch == Char.ofNat 123 || ch == Char.ofNat 125 ||
  ch == '，' || ch == '。' || ch == '；' || ch == '：' || ch == ',' ||
  ch == ';' || ch == ':' || ch == '!' || ch == '?' || ch == '！' || ch == '？'

/-- One candidate window per iteration for a fixed extension needle,
scanning `lower` from character position `start` (the
`while let Some(found)` loop of `filename_candidates_from_line`, db/mod.rs
lines 1998–2037). Each iteration advances `start` by at least the needle
length, so `lower.length + 1` fuel suffices. -/
def candidates_for_needle (line lower needle : Str) :
    Nat → Nat → List Str
  | 0, _ => []
  | fuel + 1, start =>
    match find_index_from needle (lower.drop start) with
    | none => []
    | some found =>
      let ext_start := start + found
      let ext_end := ext_start + needle.length
      let pre := line.take ext_start
      let left := pre.length -
        (pre.reverse.takeWhile (fun ch => ¬ is_filename_boundary ch)).length
      let right_ch := (line.drop ext_end).head?
      let rest := candidates_for_needle line lower needle fuel ext_end
      if (right_ch.map is_filename_boundary).getD true then
        let candidate := rustTrim (trimMatchesPred candidateTrimChar
          ((line.take ext_end).drop left))
        if 4 ≤ strByteLen candidate ∧ strByteLen candidate ≤ 180 ∧
            ¬ candidate.contains '/' ∧ ¬ candidate.contains '\\' ∧
            ¬ (startsWith (str "www.") candidate = true) then
          candidate :: rest
        else rest
      else rest

/-- Rust `Vec::dedup`: collapse consecutive equal elements. -/
def dedupConsecutive : List Str → List Str
  | [] => []
  | [x] => [x]
  | x :: y :: rest =>
    if x = y then dedupConsecutive (y :: rest)
    else x :: dedupConsecutive (y :: rest)

/-- Model of `filename_candidates_from_line` (db/mod.rs lines 1985–2043). -/
def filename_candidates_from_line (raw_line : Str) : List Str :=
  let line := rustTrim raw_line
  if line = [] ∨ 220 < strByteLen line ∨ containsSub (str "://") line then []
  else
    let lower := lowerStr line
    let exts := [str "docx", str "pptx", str "xlsx", str "xls", str "csv",
      str "jpeg", str "pdf", str "doc", str "ppt", str "md", str "png",
      str "jpg", str "webp", str "gif", str "bmp", str "svg"]
    let found := exts.foldl
      (fun acc ext =>
        acc ++ candidates_for_needle line lower ('.' :: ext)
          (lower.length + 1) 0)
      []
    dedupConsecutive (List.insertionSort (fun a b => lexLe a b = true) found)

/-- Uppercase hex digit (Rust `{:02X}`). -/
def hexDigitUpper (n : Nat) : Char :=
  if n < 10 then Char.ofNat (48 + n) else Char.ofNat (55 + n)

/-- Model of `percent_encode_component` (db/mod.rs lines 2075–2086). -/
def percent_encode_component (input : Str) : Str :=
  (utf8Bytes input).flatMap fun b =>
    if (0x30 ≤ b ∧ b ≤ 0x39) ∨ (0x41 ≤ b ∧ b ≤ 0x5A) ∨ (0x61 ≤ b ∧ b ≤ 0x7A) ∨
        b = 0x2D ∨ b = 0x5F ∨ b = 0x2E ∨ b = 0x7E then
      [Char.ofNat b]
    else ['%', hexDigitUpper (b / 16), hexDigitUpper (b % 16)]

/-- Model of `virtual_attachment_url_from_name` (db/mod.rs lines 2088–2090). -/
def virtual_attachment_url_from_name (file_name : Str) : Str :=
  str "aihistory://upload/" ++ percent_encode_component file_name

/-- Model of `extract_named_file_attachments` (db/mod.rs lines 1944–1983). -/
def extract_named_file_attachments (markdown : Str) :
    List (Str × Str × Option Str) :=
  let step := fun (st : List Str × List (Str × Str × Option Str)) (file_name : Str) =>
    let normalized := lowerStr file_name
    if normalized ∈ st.1 then st
    else
      let seen := normalized :: st.1
      let ext := lowerStr (afterLastDot file_name)
      if ext = [] then (seen, st.2)
      else
        let kind :=
          if ext = str "png" ∨ ext = str "jpg" ∨ ext = str "jpeg" ∨
              ext = str "webp" ∨ ext = str "gif" ∨ ext = str "bmp" ∨
              ext = str "svg" then str "image"
          else if ext = str "pdf" then str "pdf"
          else str "file"
        let virtual_url := virtual_attachment_url_from_name file_name
        (seen, st.2 ++ [(kind, virtual_url, infer_attachment_mime virtual_url)])
  ((rustLines markdown).foldl
    (fun st raw_line => (filename_candidates_from_line raw_line).foldl step st)
    ([], [])).2

/-! ## Ingestion pipeline (db/mod.rs lines 718–997)

`import_files` opens its own connection via `open()`, which — unlike the
migration connection — never executes `PRAGMA foreign_keys = ON`; the
pragma is per-connection in SQLite and defaults to OFF, so the declared
`ON DELETE CASCADE` clauses do not fire on this connection. The model of
`delete_conversation_for_overwrite` therefore deletes exactly the rows the
three `DELETE` statements name and leaves `attachments` untouched.

`Uuid::new_v4()` calls are replaced by `fresh k` with `k` counting the
calls inside one `import_files` invocation, in source order. -/

/-- Model of `find_existing_by_source_ref` (db/mod.rs lines 1460–1481).
The SQL orders by `updated_at DESC LIMIT 1`; the model returns the first
matching row in table order, which agrees whenever at most one row
matches. -/
def find_existing_by_source_ref (db : DbState) (source source_conversation_id : Str) :
    Option (Str × Str) :=
  (db.conversations.find? (fun c =>
    c.source == source &&
    c.source_conversation_id == some source_conversation_id)).map
    (fun c => (c.id, c.title))

/-- Model of `find_existing_by_fingerprint` (db/mod.rs lines 1442–1458). -/
def find_existing_by_fingerprint (db : DbState) (fingerprint : Str) :
    Option (Str × Str) :=
  (db.conversations.find? (fun c => c.fingerprint == fingerprint)).map
    (fun c => (c.id, c.title))

/-- Model of `delete_conversation_for_overwrite` (db/mod.rs lines
1483–1500): deletes the FTS rows, the message rows and the conversation
row; attachment rows are not cascaded (see section comment). -/
def delete_conversation_for_overwrite (db : DbState) (conversation_id : Str) :
    DbState :=
  { db with
      messages_fts := db.messages_fts.filter
        (fun r => r.conversation_id ≠ conversation_id),
      messages := db.messages.filter
        (fun m => m.conversation_id ≠ conversation_id),
      conversations := db.conversations.filter
        (fun c => c.id ≠ conversation_id) }

/-- State threaded through one turn's attachment seeding: database, fresh
counter, seen URL set, `has_non_virtual_attachment` flag. -/
abbrev SeedState := DbState × Nat × List Str × Bool

/-- The declared-attachment loop of `import_files` (db/mod.rs lines
853–908). -/
def seed_declared_attachments (fresh : Nat → Str) (now msg_id conv_id : Str)
    (atts : List NormalizedAttachment) (st : SeedState) : SeedState :=
  atts.foldl
    (fun st attachment =>
      let (db, ctr, seen, flag) := st
      let normalized_url := normalize_attachment_url attachment.original_url
      if normalized_url = [] then (db, ctr, seen, flag)
      else if is_navigation_url normalized_url then (db, ctr, seen, flag)
      else if normalized_url ∈ seen then (db, ctr, seen, flag)
      else
        let seen := normalized_url :: seen
        let flag := flag || ¬ is_virtual_attachment_url normalized_url
        let normalized_kind :=
          classify_attachment_kind attachment.kind normalized_url attachment.mime
        if normalized_kind = str "file" ∧ ¬ looks_like_file_url normalized_url
        then (db, ctr, seen, flag)
        else
          ({ db with attachments := db.attachments ++
              [declared_attachment_row (fresh ctr) msg_id conv_id
                normalized_url attachment now] },
            ctr + 1, seen, flag))
    st

/-- The inline-extraction loop of `import_files` (db/mod.rs lines
910–938). -/
def seed_inline_attachments (fresh : Nat → Str) (now msg_id conv_id : Str)
    (triples : List (Str × Str × Option Str)) (st : SeedState) : SeedState :=
  triples.foldl
    (fun st triple =>
      let (kind, url, mime) := triple
      let (db, ctr, seen, flag) := st
      if ¬ (kind = str "image" ∨ kind = str "pdf" ∨ kind = str "file") then
        (db, ctr, seen, flag)
      else if url ∈ seen then (db, ctr, seen, flag)
      else
        let seen := url :: seen
        let flag := flag || ¬ is_virtual_attachment_url url
        ({ db with attachments := db.attachments ++
            [extracted_attachment_row (fresh ctr) msg_id conv_id kind url
              mime now] },
          ctr + 1, seen, flag))
    st

/-- The named-file-extraction loop of `import_files` (db/mod.rs lines
940–967); it does not update the non-virtual flag. -/
def seed_named_attachments (fresh : Nat → Str) (now msg_id conv_id : Str)
    (triples : List (Str × Str × Option Str)) (st : SeedState) : SeedState :=
  triples.foldl
    (fun st triple =>
      let (kind, url, mime) := triple
      let (db, ctr, seen, flag) := st
      if ¬ (kind = str "image" ∨ kind = str "pdf" ∨ kind = str "file") then
        (db, ctr, seen, flag)
      else if url ∈ seen then (db, ctr, seen, flag)
      else
        let seen := url :: seen
        ({ db with attachments := db.attachments ++
            [extracted_attachment_row (fresh ctr) msg_id conv_id kind url
              mime now] },
          ctr + 1, seen, flag))
    st

/-- One turn of the per-conversation loop (db/mod.rs lines 819–968):
message insert, FTS insert, then the three attachment phases. -/
def insert_turn (fresh : Nat → Str) (now conv_source conv_id : Str)
    (st : DbState × Nat) (idx_turn : Nat × NormalizedTurn) : DbState × Nat :=
  let (db, ctr) := st
  let (idx, turn) := idx_turn
  let msg_id := fresh ctr
  let ctr := ctr + 1
  let thought_markdown :=
    if conv_source = str "gemini" then none else turn.thought_markdown
  let db := { db with
    messages := db.messages ++
      [{ id := msg_id, conversation_id := conv_id, seq := Int.ofNat idx,
         role := turn.role, content_markdown := turn.content_markdown,
         thought_markdown := thought_markdown, model := turn.model,
         timestamp := turn.timestamp, token_count := turn.token_count }],
    messages_fts := db.messages_fts ++
      [{ message_id := msg_id, conversation_id := conv_id,
         content_markdown := turn.content_markdown }] }
  let st1 : SeedState := (db, ctr, [], false)
  let st2 := seed_declared_attachments fresh now msg_id conv_id
    (turn.attachments.getD []) st1
  let st3 := seed_inline_attachments fresh now msg_id conv_id
    (extract_inline_attachments turn.content_markdown) st2
  let (db, ctr, _, has_non_virtual) := st3
  if eqIgnoreAsciiCase turn.role (str "user") ∧ ¬ has_non_virtual then
    let st4 := seed_named_attachments fresh now msg_id conv_id
      (extract_named_file_attachments turn.content_markdown) (db, ctr, [], false)
    (st4.1, st4.2.1)
  else (db, ctr)

/-- Accumulator of the per-conversation loop of `import_files`. -/
structure ImportAcc where
  db : DbState
  imported : Int
  skipped : Int
  conflicts : Int
  ctr : Nat
  new_ids : List Str

/-- Insert the new conversation row and its turns (db/mod.rs lines
788–971, after conflict resolution). -/
def insert_new_conversation (fresh : Nat → Str) (now : Str)
    (target_folder_id : Option Str) (conv : NormalizedConversation)
    (db : DbState) (ctr : Nat) (source_conversation_id : Option Str)
    (fingerprint : Str) : DbState × Nat × Str :=
  let conversation_id := fresh ctr
  let ctr := ctr + 1
  let meta_json := conv.meta.getD (str "\x7b\x7d")
  let db := { db with
    conversations := db.conversations ++
      [{ id := conversation_id, source := conv.source,
         source_conversation_id := source_conversation_id,
         folder_id := target_folder_id, title := conv.title,
         summary := conv.summary, created_at := now, updated_at := now,
         fingerprint := fingerprint, meta_json := meta_json }] }
  let st := conv.turns.enum.foldl
    (insert_turn fresh now conv.source conversation_id) (db, ctr)
  (st.1, st.2, conversation_id)

/-- One conversation of the `import_files` loop (db/mod.rs lines 732–972):
drop empty, fingerprint, conflict lookup by source ref then by
fingerprint, strategy branch, then insertion. -/
def import_one_conversation (fresh : Nat → Str) (now strategy : Str)
    (target_folder_id : Option Str) (acc : ImportAcc)
    (conv : NormalizedConversation) : ImportAcc :=
  if conv.turns = [] then acc
  else
    let fingerprint := compute_fingerprint conv
    let existing_by_source :=
      match conv.source_conversation_id with
      | some sid => find_existing_by_source_ref acc.db conv.source sid
      | none => none
    match existing_by_source with
    | some (existing_id, _) =>
      let conflicts := acc.conflicts + 1
      if strategy = str "skip" then
        { acc with conflicts := conflicts, skipped := acc.skipped + 1 }
      else if strategy = str "overwrite" then
        let db := delete_conversation_for_overwrite acc.db existing_id
        let r := insert_new_conversation fresh now target_folder_id conv db
          acc.ctr conv.source_conversation_id fingerprint
        { acc with
            db := r.1,
            conflicts := conflicts,
            imported := acc.imported + 1,
            ctr := r.2.1,
            new_ids := acc.new_ids ++ [r.2.2] }
      else if strategy = str "duplicate" then
        let scid := conv.source_conversation_id.map
          (fun id => id ++ str "#dup-" ++ fresh acc.ctr)
        let fingerprint := fingerprint ++ str "-dup-" ++ fresh (acc.ctr + 1)
        let r := insert_new_conversation fresh now target_folder_id conv
          acc.db (acc.ctr + 2) scid fingerprint
        { acc with
            db := r.1,
            conflicts := conflicts,
            imported := acc.imported + 1,
            ctr := r.2.1,
            new_ids := acc.new_ids ++ [r.2.2] }
      else
        { acc with conflicts := conflicts, skipped := acc.skipped + 1 }
    | none =>
      match find_existing_by_fingerprint acc.db fingerprint with
      | some (existing_id, _) =>
        let conflicts := acc.conflicts + 1
        if strategy = str "skip" then
          { acc with conflicts := conflicts, skipped := acc.skipped + 1 }
        else if strategy = str "overwrite" then
          let db := delete_conversation_for_overwrite acc.db existing_id
          let r := insert_new_conversation fresh now target_folder_id conv db
            acc.ctr conv.source_conversation_id fingerprint
          { acc with
              db := r.1,
              conflicts := conflicts,
              imported := acc.imported + 1,
              ctr := r.2.1,
              new_ids := acc.new_ids ++ [r.2.2] }
        else if strategy = str "duplicate" then
          let fingerprint := fingerprint ++ str "-dup-" ++ fresh acc.ctr
          let r := insert_new_conversation fresh now target_folder_id conv
            acc.db (acc.ctr + 1) conv.source_conversation_id fingerprint
          { acc with
              db := r.1,
              conflicts := conflicts,
              imported := acc.imported + 1,
              ctr := r.2.1,
              new_ids := acc.new_ids ++ [r.2.2] }
        else
          { acc with conflicts := conflicts, skipped := acc.skipped + 1 }
      | none =>
        let r := insert_new_conversation fresh now target_folder_id conv
          acc.db acc.ctr conv.source_conversation_id fingerprint
        { acc with
            db := r.1,
            imported := acc.imported + 1,
            ctr := r.2.1,
            new_ids := acc.new_ids ++ [r.2.2] }

/-- Model of `import_files` (db/mod.rs lines 718–997): ensure the system
folder, run the conversation loop, write the audit row, return counters.
The fire-and-forget cache scheduling after commit is I/O and not part of
the state model. -/
def import_files (fresh : Nat → Str) (now : Str) (db : DbState)
    (batch : ImportBatch) : DbState × ImportResult :=
  let db := ensure_system_folders now db
  let target_folder_id :=
    batch.folder_id.orElse (fun _ => some uncategorizedFolderId)
  let acc := batch.conversations.foldl
    (import_one_conversation fresh now batch.strategy target_folder_id)
    { db := db, imported := 0, skipped := 0, conflicts := 0, ctr := 0,
      new_ids := [] }
  let audit : ImportsRow :=
    { id := fresh acc.ctr, source := str "batch",
      imported_count := acc.imported, skipped_count := acc.skipped,
      conflict_count := acc.conflicts, created_at := now }
  ({ acc.db with imports := acc.db.imports ++ [audit] },
    { imported := acc.imported, skipped := acc.skipped,
      conflicts := acc.conflicts })

/-! ## Live-capture sanitizer (db/mod.rs lines 1599–1794) -/

/-- Rust `str::replace`, by fuel-bounded recursion on the number of
replaced occurrences (each consumes at least one character when the
pattern is non-empty, so `s.length` fuel suffices). -/
def replaceAllAux (p r : Str) : Nat → Str → Str
  | 0, s => s
  | fuel + 1, s =>
    match split_at_seq p s with
    | none => s
    | some (b, a) => b ++ r ++ replaceAllAux p r fuel a

/-- Rust `s.replace(p, r)`. -/
def rustReplace (s p r : Str) : Str := replaceAllAux p r s.length s

/-- The UI-noise markers dropped by `normalize_markdown_text` (db/mod.rs
lines 1639–1646). -/
def noisyMarkers : List Str :=
  [str "more_vert", str "chevron_right", str "chevron_left",
   str "expand_more", str "model thoughts", str "skip to main content"]

/-- The noisy-line test of `normalize_markdown_text` (db/mod.rs lines
1638–1648): lowercased line equal to a marker or starting with
`"<marker> "`. -/
def isNoisyLine (marker_check : Str) : Bool :=
  let lower := lowerStr marker_check
  noisyMarkers.any (fun marker =>
    lower == marker || startsWith (marker ++ [' ']) lower)

/-- Model of `normalize_for_prefix_match` (db/mod.rs lines 1694–1702). -/
def normalize_for_prefix_match (text : Str) : Str :=
  lowerStr ((trimEndMatches '：' (trimEndMatches ':' (rustTrim text))).filter
    (fun c => ¬ rustIsWhitespace c))

/-- Model of `is_gemini_ui_prefix_line` (db/mod.rs lines 1704–1710). -/
def is_gemini_ui_prefix_line (line : Str) : Bool :=
  let compact := normalize_for_prefix_match line
  compact == str "yousaid" || compact == str "geminisaid" ||
  startsWith (str "显示思路id_") compact || startsWith (str "显示思路id") compact

/-- The replacement chain opening `normalize_markdown_text` (db/mod.rs
lines 1620–1626): `\r` removed, NBSP to space, `<br>`-style breaks and
closing `</p>`/`</div>` tags to newlines. -/
def normalize_step1 (raw : Str) : Str :=
  rustReplace (rustReplace (rustReplace (rustReplace (rustReplace
    (rustReplace (rustReplace raw (str "\r") []) [Char.ofNat 0xA0] [' '])
    (str "<br>") ['\n']) (str "<br/>") ['\n']) (str "<br />") ['\n'])
    (str "</p>") ['\n']) (str "</div>") ['\n']

/-- The line-filter loop of `normalize_markdown_text` (db/mod.rs lines
1628–1658): blank lines become empty strings, noisy lines are dropped,
gemini UI prefix lines are dropped before the first content line, kept
lines are right-trimmed. -/
def keep_lines : List Str → Bool → List Str
  | [], _ => []
  | line :: rest, seen =>
    let right_trimmed := rustTrimEnd line
    let marker_check := rustTrim right_trimmed
    if marker_check = [] then [] :: keep_lines rest seen
    else if isNoisyLine marker_check then keep_lines rest seen
    else if ¬ seen ∧ is_gemini_ui_prefix_line marker_check then
      keep_lines rest seen
    else right_trimmed :: keep_lines rest true

/-- The blank-collapsing loop of `normalize_markdown_text` (db/mod.rs
lines 1660–1672). -/
def collapse_blank : List Str → Bool → List Str
  | [], _ => []
  | line :: rest, last_empty =>
    if line = [] then
      if last_empty then collapse_blank rest true
      else [] :: collapse_blank rest true
    else line :: collapse_blank rest false

/-- Model of `normalize_markdown_text` (db/mod.rs lines 1619–1675). -/
def normalize_markdown_text (raw : Str) : Str :=
  rustTrim (joinNl (collapse_blank (keep_lines (rustLines (normalize_step1 raw))
    false) false))

/-- `GEMINI_BOILERPLATE_MARKERS` (db/mod.rs lines 1677–1685). -/
def geminiBoilerplateMarkers : List Str :=
  [str "如果你想让我保存或删除我们对话中关于你的信息",
   str "你需要先开启过往对话记录",
   str "你也可以手动添加或更新你给gemini的指令",
   str "从而定制gemini的回复",
   str "ifyouwantmetosaveordeleteinformationfromourconversations",
   str "youneedtoturnonchathistory",
   str "youcanalsomanuallyaddorupdateyourinstructionsforgemini"]

/-- Model of `normalize_for_gemini_filter` (db/mod.rs lines 1687–1692). -/
def normalize_for_gemini_filter (text : Str) : Str :=
  lowerStr (text.filter (fun c => ¬ rustIsWhitespace c))

/-- The leading-line filter of `strip_gemini_ui_prefixes` (db/mod.rs lines
1712–1731). -/
def strip_prefix_lines : List Str → Bool → List Str
  | [], _ => []
  | line :: rest, seen =>
    if ¬ seen then
      let trimmed := rustTrim line
      if trimmed = [] then strip_prefix_lines rest false
      else if is_gemini_ui_prefix_line trimmed then strip_prefix_lines rest false
      else line :: strip_prefix_lines rest true
    else line :: strip_prefix_lines rest true

/-- Model of `strip_gemini_ui_prefixes` (db/mod.rs lines 1712–1731). -/
def strip_gemini_ui_prefixes (text : Str) : Str :=
  rustTrim (joinNl (strip_prefix_lines (rustLines text) false))

/-- Rust `str::split` over a string pattern, fuel-bounded like
`rustReplace`. -/
def rustSplitSeqAux (pat : Str) : Nat → Str → List Str
  | 0, s => [s]
  | fuel + 1, s =>
    match split_at_seq pat s with
    | none => [s]
    | some (b, a) => b :: rustSplitSeqAux pat fuel a

/-- Rust `s.split(pat)` for a non-empty string pattern. -/
def rustSplitSeq (pat s : Str) : List Str := rustSplitSeqAux pat s.length s

/-- Join with a separator (Rust `Vec::join`). -/
def joinSep (sep : Str) : List Str → Str
  | [] => []
  | [l] => l
  | l :: ls => l ++ sep ++ joinSep sep ls

/-- Model of `strip_gemini_boilerplate` (db/mod.rs lines 1733–1748). -/
def strip_gemini_boilerplate (text : Str) : Str :=
  let kept := (rustSplitSeq (str "\n\n") text).foldl
    (fun kept paragraph =>
      let normalized := normalize_for_gemini_filter paragraph
      if normalized = [] then kept
      else if geminiBoilerplateMarkers.any
          (fun marker => containsSub marker normalized) then kept
      else kept ++ [rustTrim paragraph])
    []
  joinSep (str "\n\n") kept

/-- Model of `sanitize_live_capture_turns` (db/mod.rs lines 1750–1794). -/
def sanitize_live_capture_turns (source : Str) (turns : List NormalizedTurn) :
    List NormalizedTurn :=
  turns.foldl
    (fun out turn =>
      let content_without_prefix :=
        if source = str "gemini" then
          strip_gemini_ui_prefixes turn.content_markdown
        else turn.content_markdown
      let raw_content :=
        if source = str "gemini" ∧ eqIgnoreAsciiCase turn.role (str "assistant")
        then strip_gemini_boilerplate content_without_prefix
        else content_without_prefix
      let cleaned_content := normalize_markdown_text raw_content
      let has_attachments :=
        (turn.attachments.map (fun items => !items.isEmpty)).getD false
      if cleaned_content = [] ∧ has_attachments = false then out
      else
        let cleaned_content :=
          if cleaned_content = [] then str "（仅附件消息）" else cleaned_content
        let cleaned_thought :=
          if source = str "gemini" then none
          else
            match turn.thought_markdown with
            | none => none
            | some value =>
              let n := normalize_markdown_text value
              if n = [] then none else some n
        out ++ [{ turn with
                    content_markdown := cleaned_content,
                    thought_markdown := cleaned_thought }])
    []

/-! ## Bridge server (http/mod.rs)

Headers are modelled as the two values the handlers read: the `Origin`
header and the `X-AI-History-Token` header. `Instant` is a `Nat`; the
session map is an association list. The HTTP result is modelled as
`(status, error-or-marker body, database state)`; a `200` response
serializes the `ImportResult`, which the claims do not inspect. -/

/-- Model of `canonicalize_source_url` (db/mod.rs lines 1599–1617): strip
the fragment always, and the query too for the known vendor hosts. URLs
without `"://"` model the parse-failure branch (returned trimmed). -/
def canonicalize_source_url (raw : Str) : Str :=
  let trimmed := rustTrim raw
  if ¬ containsSub (str "://") trimmed then trimmed
  else
    let noFrag := trimmed.takeWhile (fun c => c ≠ '#')
    match hostOf trimmed with
    | some host =>
      if containsSub (str "chatgpt.com") host ||
          containsSub (str "gemini.google.com") host ||
          containsSub (str "bard.google.com") host ||
          containsSub (str "aistudio.google.com") host then
        noFrag.takeWhile (fun c => c ≠ '?')
      else noFrag
    | none => noFrag

/-- Model of `import_live_capture` (db/mod.rs lines 999–1034). -/
def import_live_capture (fresh : Nat → Str) (now : Str) (db : DbState)
    (request : LiveCaptureRequest) : DbState × Except Str ImportResult :=
  let canonical_page_url := canonicalize_source_url request.page_url
  let sanitized_turns := sanitize_live_capture_turns request.source request.turns
  if sanitized_turns = [] then (db, Except.error (str "未提取到有效会话内容"))
  else
    let conv : NormalizedConversation :=
      { source := request.source,
        source_conversation_id := some canonical_page_url,
        title := request.title, summary := none,
        created_at := some request.captured_at,
        updated_at := some request.captured_at,
        turns := sanitized_turns,
        meta := some (str "\x7b\"capturedBy\":\"extension\",\"version\":\"" ++
          request.version ++ str "\"\x7d") }
    let r := import_files fresh now db
      { conversations := [conv], strategy := str "overwrite", folder_id := none }
    (r.1, Except.ok r.2)

/-- Model of `allow_origin` (http/mod.rs lines 152–158). -/
def allow_origin (origin : Option Str) : Bool :=
  match origin with
  | none => true
  | some o =>
    startsWith (str "chrome-extension://") o ||
    startsWith (str "edge-extension://") o

/-- Model of `verify_session` (http/mod.rs lines 50–57): prune expired
entries, then look the token up. -/
def verify_session (nowInstant : Nat) (sessions : List (Str × Nat))
    (token : Str) : Bool :=
  ((sessions.filter (fun s => nowInstant < s.2)).find?
    (fun s => s.1 == token)).isSome

/-- Model of the `import_live` handler (http/mod.rs lines 122–150):
origin check, token presence, session verification, then the import. -/
def import_live (origin token : Option Str) (sessions : List (Str × Nat))
    (nowInstant : Nat) (fresh : Nat → Str) (now : Str) (db : DbState)
    (payload : LiveCaptureRequest) : Nat × Str × DbState :=
  if ¬ allow_origin origin then (403, str "origin_not_allowed", db)
  else
    match token with
    | none => (401, str "missing_token", db)
    | some t =>
      if ¬ verify_session nowInstant sessions t then
        (401, str "invalid_or_expired_token", db)
      else
        match import_live_capture fresh now db payload with
        | (db', Except.ok _) => (200, str "ok", db')
        | (db', Except.error e) => (500, e, db')

/-! ## Concrete instances used by counterexamples and witnesses -/

/-- C8 failing input: 299 ASCII bytes followed by a two-byte character, so
byte index 300 falls inside the final character. -/
def c8FailingInput : Str := List.replicate 299 'a' ++ ['é']

/-- C1 counterexample input: a declared attachment whose input declares
`status = "cached"`. -/
def c1DeclaredCachedInput : NormalizedAttachment :=
  { kind := str "image", original_url := str "https://example.com/a.png",
    mime := none, status := some (str "cached") }

/-- The row `import_files` persists for `c1DeclaredCachedInput`. -/
def c1CounterRow : Attachment :=
  declared_attachment_row (str "a1") (str "m1") (str "c1")
    (normalize_attachment_url (str "https://example.com/a.png"))
    c1DeclaredCachedInput (str "t0")

/-- The per-attachment-row invariant claimed by the specification. -/
def attachmentInvariant (a : Attachment) : Prop :=
  (a.status = str "cached" →
    a.sha256 ≠ none ∧ ∃ n : Int, a.size_bytes = some n ∧ 0 ≤ n) ∧
  (a.status = str "failed" → a.error ≠ none)

/-- C5 counterexample input: an ingested attachment declared as an image of
a vendor file endpoint, corroborated at ingest time by its declared MIME. -/
def c5IngestInput : NormalizedAttachment :=
  { kind := str "image",
    original_url := str "https://example.com/backend-api/files/abc",
    mime := some (str "image/png"), status := none }

/-- The (already canonical) URL of `c5IngestInput`. -/
def c5Url : Str := normalize_attachment_url
  (str "https://example.com/backend-api/files/abc")

/-- The row `import_files` persists for `c5IngestInput`. -/
def c5Row : Attachment :=
  declared_attachment_row (str "a1") (str "m1") (str "c1") c5Url c5IngestInput
    (str "t0")

/-- The same row after the cache worker fetches it and the server answers
with `Content-Type: application/octet-stream`. -/
def c5Demoted : Attachment :=
  cache_worker_store_step c5Row c5Url (some (str "application/octet-stream"))
    [0] (str "assets/x")

/-- The empty database state. -/
def emptyDb : DbState :=
  { folders := [], conversations := [], messages := [], messages_fts := [],
    attachments := [], imports := [] }

/-- A deterministic fresh-id generator; distinct indices give distinct ids. -/
def freshTag (tag : Char) : Nat → Str := fun n => tag :: List.replicate n '0'

/-- The reserved folder as a concrete row. -/
def uncatFolderRow : Folder :=
  { id := uncategorizedFolderId, name := str "未分类", parent_id := none,
    sort_order := 0, created_at := str "t0", updated_at := str "t0" }

/-- A user turn saying `hello`. -/
def helloTurn : NormalizedTurn :=
  { role := str "user", content_markdown := str "hello",
    thought_markdown := none, attachments := none, model := none,
    timestamp := none, token_count := none }

/-- An assistant turn saying `hi`. -/
def hiTurn : NormalizedTurn :=
  { role := str "assistant", content_markdown := str "hi",
    thought_markdown := none, attachments := none, model := none,
    timestamp := none, token_count := none }

/-- The two-turn `chatgpt` conversation of the C3 scenario. -/
def c3Conv : NormalizedConversation :=
  { source := str "chatgpt", source_conversation_id := some (str "abc"),
    title := str "t", summary := none, created_at := none, updated_at := none,
    turns := [helloTurn, hiTurn], meta := none }

/-- State after the first import of `c3Conv`. -/
def c3Db1 : DbState :=
  (import_files (freshTag 'a') (str "t1") emptyDb
    { conversations := [c3Conv], strategy := str "overwrite",
      folder_id := none }).1

/-- The second, identical import with strategy `skip`. -/
def c3Run2 : DbState × ImportResult :=
  import_files (freshTag 'b') (str "t2") c3Db1
    { conversations := [c3Conv], strategy := str "skip", folder_id := none }

/-- The pre-existing conversation row used by the C4 scenario. -/
def c4OldConv : Conversation :=
  { id := str "c-old", source := str "chatgpt",
    source_conversation_id := some (str "abc"),
    folder_id := some uncategorizedFolderId, title := str "t", summary := none,
    created_at := str "t0", updated_at := str "t0",
    fingerprint := str "fp-old", meta_json := str "\x7b\x7d" }

/-- Its message row. -/
def c4OldMsg : Message :=
  { id := str "m-old", conversation_id := str "c-old", seq := 0,
    role := str "user", content_markdown := str "hello",
    thought_markdown := none, model := none, timestamp := none,
    token_count := none }

/-- Its FTS row. -/
def c4OldFts : MessagesFts :=
  { message_id := str "m-old", conversation_id := str "c-old",
    content_markdown := str "hello" }

/-- Its attachment row. -/
def c4OldAtt : Attachment :=
  { id := str "a-old", message_id := str "m-old",
    conversation_id := str "c-old", kind := str "image",
    original_url := str "https://example.com/x.png", local_path := none,
    mime := some (str "image/png"), size_bytes := none, sha256 := none,
    status := str "remote_only", error := none, created_at := str "t0" }

/-- The C4 initial state: one conversation with a message, an FTS row and
an attachment row. -/
def c4Db0 : DbState :=
  { folders := [uncatFolderRow], conversations := [c4OldConv],
    messages := [c4OldMsg], messages_fts := [c4OldFts],
    attachments := [c4OldAtt], imports := [] }

/-- The conversation re-imported over `c4OldConv` with `overwrite`. -/
def c4Conv : NormalizedConversation :=
  { source := str "chatgpt", source_conversation_id := some (str "abc"),
    title := str "t2", summary := none, created_at := none, updated_at := none,
    turns := [hiTurn], meta := none }

/-- State after the overwrite import. -/
def c4Db1 : DbState :=
  (import_files (freshTag 'n') (str "t1") c4Db0
    { conversations := [c4Conv], strategy := str "overwrite",
      folder_id := none }).1

/-- The incoming conversation of the C10 witness. -/
def c10Conv : NormalizedConversation :=
  { source := str "chatgpt", source_conversation_id := some (str "abc"),
    title := str "t", summary := none, created_at := none, updated_at := none,
    turns := [helloTurn], meta := none }

/-- An existing row matched by source ref whose fingerprint equals the
incoming conversation's fingerprint. -/
def c10Existing : Conversation :=
  { id := str "c0", source := str "chatgpt",
    source_conversation_id := some (str "abc"),
    folder_id := some uncategorizedFolderId, title := str "t", summary := none,
    created_at := str "t0", updated_at := str "t0",
    fingerprint := compute_fingerprint c10Conv, meta_json := str "\x7b\x7d" }

/-- The C10 witness initial state. -/
def c10Db : DbState :=
  { folders := [uncatFolderRow], conversations := [c10Existing],
    messages := [], messages_fts := [], attachments := [], imports := [] }

/-- The gemini assistant turn whose UI-noise line interrupts a boilerplate
paragraph (C9 counterexample). -/
def c9Turn : NormalizedTurn :=
  { role := str "assistant",
    content_markdown :=
      str "如果你想让我保存或删除我们对话中\nmore_vert\n关于你的信息",
    thought_markdown := none, attachments := none, model := none,
    timestamp := none, token_count := none }

/-- A live-capture payload used by the C7 witness. -/
def c7Payload : LiveCaptureRequest :=
  { source := str "chatgpt", page_url := str "https://chatgpt.com/c/1",
    title := str "t", turns := [helloTurn], captured_at := str "t0",
    version := str "1" }

/-! ## Pipeline lemmas -/

theorem ne_append_append (l m t : Str) (hm : m ≠ []) : l ≠ (l ++ m) ++ t := by
  intro h
  have hl := congrArg List.length h
  rw [List.length_append, List.length_append] at hl
  have : 0 < m.length := List.length_pos.mpr hm
  omega

theorem seed_declared_attachments_conversations (fresh : Nat → Str)
    (now msg_id conv_id : Str) (atts : List NormalizedAttachment) :
    ∀ st : SeedState,
      (seed_declared_attachments fresh now msg_id conv_id atts st).1.conversations
        = st.1.conversations := by
  induction atts with
  | nil => intro st; rfl
  | cons a as ih =>
    intro st
    show (seed_declared_attachments fresh now msg_id conv_id as _).1.conversations
      = st.1.conversations
    rw [ih]
    rcases st with ⟨db, ctr, seen, flag⟩
    simp only
    split_ifs <;> rfl

theorem seed_inline_attachments_conversations (fresh : Nat → Str)
    (now msg_id conv_id : Str) (triples : List (Str × Str × Option Str)) :
    ∀ st : SeedState,
      (seed_inline_attachments fresh now msg_id conv_id triples st).1.conversations
        = st.1.conversations := by
  induction triples with
  | nil => intro st; rfl
  | cons a as ih =>
    intro st
    show (seed_inline_attachments fresh now msg_id conv_id as _).1.conversations
      = st.1.conversations
    rw [ih]
    rcases st with ⟨db, ctr, seen, flag⟩
    rcases a with ⟨k, u, m⟩
    simp only
    split_ifs <;> rfl

theorem seed_named_attachments_conversations (fresh : Nat → Str)
    (now msg_id conv_id : Str) (triples : List (Str × Str × Option Str)) :
    ∀ st : SeedState,
      (seed_named_attachments fresh now msg_id conv_id triples st).1.conversations
        = st.1.conversations := by
  induction triples with
  | nil => intro st; rfl
  | cons a as ih =>
    intro st
    show (seed_named_attachments fresh now msg_id conv_id as _).1.conversations
      = st.1.conversations
    rw [ih]
    rcases st with ⟨db, ctr, seen, flag⟩
    rcases a with ⟨k, u, m⟩
    simp only
    split_ifs <;> rfl

theorem ite_fst_conversations (c : Prop) [Decidable c] (x y : DbState × Nat)
    (v : List Conversation) (hx : x.1.conversations = v)
    (hy : y.1.conversations = v) :
    (if c then x else y).1.conversations = v := by
  split <;> assumption

theorem insert_turn_conversations (fresh : Nat → Str)
    (now conv_source conv_id : Str) (st : DbState × Nat)
    (it : Nat × NormalizedTurn) :
    (insert_turn fresh now conv_source conv_id st it).1.conversations
      = st.1.conversations := by
  rcases st with ⟨db, ctr⟩
  rcases it with ⟨idx, turn⟩
  unfold insert_turn
  dsimp only
  apply ite_fst_conversations
  · dsimp only
    rw [seed_named_attachments_conversations]
    dsimp only
    rw [seed_inline_attachments_conversations,
      seed_declared_attachments_conversations]
  · dsimp only
    rw [seed_inline_attachments_conversations,
      seed_declared_attachments_conversations]

theorem foldl_insert_turn_conversations (fresh : Nat → Str)
    (now conv_source conv_id : Str) (l : List (Nat × NormalizedTurn)) :
    ∀ st : DbState × Nat,
      ((l.foldl (insert_turn fresh now conv_source conv_id) st)).1.conversations
        = st.1.conversations := by
  induction l with
  | nil => intro st; rfl
  | cons a as ih =>
    intro st
    rw [List.foldl_cons, ih, insert_turn_conversations]

theorem insert_new_conversation_conversations (fresh : Nat → Str) (now : Str)
    (target_folder_id : Option Str) (conv : NormalizedConversation)
    (db : DbState) (ctr : Nat) (scid : Option Str) (fingerprint : Str) :
    (insert_new_conversation fresh now target_folder_id conv db ctr scid
      fingerprint).1.conversations
      = db.conversations ++
        [{ id := fresh ctr, source := conv.source,
           source_conversation_id := scid, folder_id := target_folder_id,
           title := conv.title, summary := conv.summary, created_at := now,
           updated_at := now, fingerprint := fingerprint,
           meta_json := conv.meta.getD (str "\x7b\x7d") }] := by
  unfold insert_new_conversation
  simp only
  rw [foldl_insert_turn_conversations]

/-! ## Sanitizer lemmas

These develop the idempotence of `normalize_markdown_text` needed for the
amended C9 statement: a characterization of the normalizer's output as a
canonical form (joined, trimmed, noise-free lines) that every stage of a
second pass leaves unchanged. -/

theorem dropWhile_dropWhile (p : Char → Bool) (l : Str) :
    (l.dropWhile p).dropWhile p = l.dropWhile p := by
  induction l with
  | nil => rfl
  | cons c t ih =>
    by_cases h : p c = true
    · rw [List.dropWhile_cons, if_pos h]
      exact ih
    · rw [List.dropWhile_cons, if_neg h, List.dropWhile_cons, if_neg h]

theorem rustTrimStart_idem (s : Str) :
    rustTrimStart (rustTrimStart s) = rustTrimStart s :=
  dropWhile_dropWhile _ _

theorem rustTrimEnd_idem (s : Str) :
    rustTrimEnd (rustTrimEnd s) = rustTrimEnd s := by
  unfold rustTrimEnd
  rw [List.reverse_reverse, dropWhile_dropWhile]

theorem rustTrimStart_suffix (s : Str) : rustTrimStart s <:+ s :=
  List.dropWhile_suffix _

theorem rustTrimEnd_prefix_self (s : Str) : rustTrimEnd s <+: s := by
  unfold rustTrimEnd
  rw [← List.reverse_reverse s]
  exact List.reverse_prefix.mpr (by rw [List.reverse_reverse]; exact List.dropWhile_suffix _)

theorem rustTrim_infix_self (s : Str) : rustTrim s <:+: s :=
  (rustTrimEnd_prefix_self (rustTrimStart s)).isInfix.trans
    (rustTrimStart_suffix s).isInfix

theorem rustTrimStart_eq_self (s : Str) (c : Char) (h : s.head? = some c)
    (hc : rustIsWhitespace c = false) : rustTrimStart s = s := by
  cases s with
  | nil => rfl
  | cons a t =>
    cases h
    show List.dropWhile rustIsWhitespace (c :: t) = c :: t
    rw [List.dropWhile_cons, hc]
    simp

theorem rustTrimEnd_eq_self (s : Str) (c : Char) (h : s.getLast? = some c)
    (hc : rustIsWhitespace c = false) : rustTrimEnd s = s := by
  unfold rustTrimEnd
  have hrev : s.reverse.head? = some c := by
    rw [List.head?_reverse]
    exact h
  cases hs : s.reverse with
  | nil => simp [hs] at hrev
  | cons a t =>
    rw [hs] at hrev
    cases hrev
    have hdw : List.dropWhile rustIsWhitespace (c :: t) = c :: t := by
      rw [List.dropWhile_cons, hc]
      simp
    rw [hdw, ← hs, List.reverse_reverse]

theorem rustTrimStart_head_not_ws (s : Str) (c : Char)
    (h : (rustTrimStart s).head? = some c) : rustIsWhitespace c = false := by
  have := List.head?_dropWhile_not rustIsWhitespace s
  rw [show (s.dropWhile rustIsWhitespace) = rustTrimStart s from rfl] at this
  rw [h] at this
  exact this

theorem rustTrimEnd_getLast_not_ws (s : Str) (c : Char)
    (h : (rustTrimEnd s).getLast? = some c) : rustIsWhitespace c = false := by
  have hh : (s.reverse.dropWhile rustIsWhitespace).head? = some c := by
    have : (rustTrimEnd s).getLast? =
        (s.reverse.dropWhile rustIsWhitespace).reverse.getLast? := rfl
    rw [this, List.getLast?_reverse] at h
    exact h
  have := List.head?_dropWhile_not rustIsWhitespace s.reverse
  rw [hh] at this
  exact this

theorem rustTrimStart_append (x y : Str) (h : rustTrimStart x ≠ []) :
    rustTrimStart (x ++ y) = rustTrimStart x ++ y := by
  unfold rustTrimStart at h ⊢
  rw [List.dropWhile_append]
  simp only [List.isEmpty_iff]
  rw [if_neg h]

theorem rustTrimStart_append_nil (x y : Str) (h : rustTrimStart x = []) :
    rustTrimStart (x ++ y) = rustTrimStart y := by
  unfold rustTrimStart at h ⊢
  rw [List.dropWhile_append]
  simp only [List.isEmpty_iff]
  rw [if_pos h]

theorem rustTrimEnd_append_newline (x : Str) :
    rustTrimEnd (x ++ ['\n']) = rustTrimEnd x := by
  unfold rustTrimEnd
  rw [List.reverse_append]
  show (List.dropWhile rustIsWhitespace ('\n' :: x.reverse)).reverse = _
  have hnl : rustIsWhitespace '\n' = true := by decide
  rw [List.dropWhile_cons, hnl]
  simp

theorem rustTrimStart_cons_newline (x : Str) :
    rustTrimStart ('\n' :: x) = rustTrimStart x := by
  show List.dropWhile rustIsWhitespace ('\n' :: x) = rustTrimStart x
  have hnl : rustIsWhitespace '\n' = true := by decide
  rw [List.dropWhile_cons, hnl]
  rfl

theorem rustTrim_cons_newline (x : Str) : rustTrim ('\n' :: x) = rustTrim x := by
  unfold rustTrim
  rw [rustTrimStart_cons_newline]

theorem rustTrim_append_newline (x : Str) :
    rustTrim (x ++ ['\n']) = rustTrim x := by
  unfold rustTrim
  by_cases h : rustTrimStart x = []
  · rw [rustTrimStart_append_nil x ['\n'] h, h]
    rfl
  · rw [rustTrimStart_append x ['\n'] h, rustTrimEnd_append_newline]

theorem rustTrim_trimStart (l : Str) : rustTrim (rustTrimStart l) = rustTrim l := by
  unfold rustTrim
  rw [rustTrimStart_idem]

theorem rustTrimStart_ne_nil_of_trim (l : Str) (h : rustTrim l ≠ []) :
    rustTrimStart l ≠ [] := by
  intro hc
  apply h
  unfold rustTrim
  rw [hc]
  rfl

theorem getLast?_suffix (l₁ l₂ : Str) (h : l₁ <:+ l₂) (hne : l₁ ≠ []) :
    l₂.getLast? = l₁.getLast? := by
  rcases h with ⟨t, rfl⟩
  rw [List.getLast?_append_of_ne_nil _ hne]

theorem contentline_last_not_ws (l : Str) (hte : rustTrimEnd l = l)
    (hne : l ≠ []) : ∃ c, l.getLast? = some c ∧ rustIsWhitespace c = false := by
  rcases List.getLast?_eq_some_iff.mpr ⟨l.dropLast, (List.dropLast_append_getLast?
    (l.getLast hne) (List.getLast?_eq_getLast l hne)).symm⟩ with h
  refine ⟨l.getLast hne, List.getLast?_eq_getLast l hne, ?_⟩
  apply rustTrimEnd_getLast_not_ws l
  rw [hte]
  exact List.getLast?_eq_getLast l hne

theorem rustTrimEnd_trimStart (l : Str) (hte : rustTrimEnd l = l)
    (htr : rustTrim l ≠ []) :
    rustTrimEnd (rustTrimStart l) = rustTrimStart l := by
  have hs : rustTrimStart l ≠ [] := rustTrimStart_ne_nil_of_trim l htr
  have hlne : l ≠ [] := by
    intro h
    rw [h] at hs
    exact hs rfl
  rcases contentline_last_not_ws l hte hlne with ⟨c, hc, hcw⟩
  refine rustTrimEnd_eq_self _ c ?_ hcw
  rw [← getLast?_suffix (rustTrimStart l) l (rustTrimStart_suffix l) hs]
  exact hc

theorem singleton_infix_iff_mem (c : Char) (l : Str) : [c] <:+: l ↔ c ∈ l := by
  constructor
  · rintro ⟨s, t, rfl⟩
    simp
  · intro h
    rcases List.mem_iff_append.mp h with ⟨s, t, rfl⟩
    exact ⟨s, t, by simp⟩

theorem prefix_stop_of_not_mem (q u v : Str) (c : Char) (hc : c ∉ q)
    (h : q <+: u ++ c :: v) : q <+: u := by
  by_cases hlen : q.length ≤ u.length
  · exact List.prefix_of_prefix_length_le h (List.prefix_append u (c :: v)) hlen
  · exfalso
    apply hc
    have hq : q = (u ++ c :: v).take q.length := List.prefix_iff_eq_take.mp h
    rw [hq, List.take_append_eq_append_take]
    refine List.mem_append.mpr (Or.inr ?_)
    have hpos : q.length - u.length = (q.length - u.length - 1) + 1 := by omega
    rw [hpos, List.take_succ_cons]
    exact List.mem_cons_self _ _

theorem infix_split_of_not_mem (q v : Str) (c : Char) (hc : c ∉ q) :
    ∀ u : Str, q <:+: u ++ c :: v → q <:+: u ∨ q <:+: v := by
  intro u
  induction u with
  | nil =>
    intro h
    rcases List.infix_cons_iff.mp h with hpre | hinf
    · left
      have hnil := prefix_stop_of_not_mem q [] v c hc hpre
      rw [List.prefix_nil] at hnil
      rw [hnil]
    · exact Or.inr hinf
  | cons a u' ih =>
    intro h
    rcases List.infix_cons_iff.mp h with hpre | hinf
    · exact Or.inl (prefix_stop_of_not_mem q (a :: u') v c hc hpre).isInfix
    · rcases ih hinf with h1 | h2
      · exact Or.inl (List.infix_cons h1)
      · exact Or.inr h2

theorem split_at_seq_eq (pat : Str) :
    ∀ {s b a : Str}, split_at_seq pat s = some (b, a) → s = b ++ pat ++ a := by
  intro s
  induction s with
  | nil =>
    intro b a h
    simp only [split_at_seq] at h
    split at h
    · rename_i hpre
      rw [List.isPrefixOf_iff_prefix, List.prefix_nil] at hpre
      cases h
      simp [hpre]
    · cases h
  | cons c cs ih =>
    intro b a h
    simp only [split_at_seq] at h
    split at h
    · rename_i hpre
      rw [List.isPrefixOf_iff_prefix] at hpre
      cases h
      have htake := List.prefix_iff_eq_take.mp hpre
      simp only [List.nil_append]
      calc c :: cs
          = (c :: cs).take pat.length ++ (c :: cs).drop pat.length :=
            (List.take_append_drop _ _).symm
        _ = pat ++ (c :: cs).drop pat.length := by rw [← htake]
    · revert h
      split
      · intro h; cases h
      · rename_i b' a' heq
        intro h
        cases h
        simp [ih heq]

theorem split_at_seq_none_of_eq_none (pat : Str) :
    ∀ {s : Str}, split_at_seq pat s = none → ¬ pat <:+: s := by
  intro s
  induction s with
  | nil =>
    intro h hinf
    simp only [split_at_seq] at h
    split at h
    · cases h
    · rename_i hpre
      rw [List.isPrefixOf_iff_prefix] at hpre
      exact hpre (List.infix_nil.mp hinf ▸ List.nil_prefix)
  | cons c cs ih =>
    intro h hinf
    simp only [split_at_seq] at h
    split at h
    · cases h
    · rename_i hpre
      rw [List.isPrefixOf_iff_prefix] at hpre
      revert h
      split
      · rename_i hcs
        intro _
        rcases List.infix_cons_iff.mp hinf with hp | hi
        · exact hpre hp
        · exact ih hcs hi
      · intro h; cases h

theorem split_at_seq_first (pat : Str) (hpat : pat ≠ []) :
    ∀ {s b a : Str}, split_at_seq pat s = some (b, a) → ¬ pat <:+: b := by
  intro s
  induction s with
  | nil =>
    intro b a h
    simp only [split_at_seq] at h
    split at h
    · cases h
      intro hinf
      exact hpat (List.infix_nil.mp hinf)
    · cases h
  | cons c cs ih =>
    intro b a h
    simp only [split_at_seq] at h
    split at h
    · cases h
      intro hinf
      exact hpat (List.infix_nil.mp hinf)
    · rename_i hpre
      rw [List.isPrefixOf_iff_prefix] at hpre
      revert h
      split
      · intro h; cases h
      · rename_i b' a' heq
        intro h
        cases h
        intro hinf
        rcases List.infix_cons_iff.mp hinf with hp | hi
        · apply hpre
          refine hp.trans ?_
          rw [split_at_seq_eq pat heq]
          refine List.cons_prefix_cons.mpr ⟨rfl, ?_⟩
          rw [List.append_assoc]
          exact List.prefix_append _ _
        · exact ih heq hi

theorem replaceAllAux_id_of_no_occurrence (p r : Str) (s : Str) (h : ¬ p <:+: s) :
    ∀ fuel, replaceAllAux p r fuel s = s := by
  intro fuel
  cases fuel with
  | zero => rfl
  | succ n =>
    simp only [replaceAllAux]
    cases hsp : split_at_seq p s with
    | none => rfl
    | some ba =>
      exfalso
      apply h
      rcases ba with ⟨b, a⟩
      rw [split_at_seq_eq p hsp]
      exact ⟨b, a, by simp⟩

theorem rustReplace_id_of_no_occurrence (s p r : Str) (h : ¬ p <:+: s) :
    rustReplace s p r = s :=
  replaceAllAux_id_of_no_occurrence p r s h s.length

theorem mem_replaceAllAux (p r : Str) (c : Char) :
    ∀ fuel s, c ∈ replaceAllAux p r fuel s → c ∈ s ∨ c ∈ r := by
  intro fuel
  induction fuel with
  | zero => intro s h; exact Or.inl h
  | succ n ih =>
    intro s h
    simp only [replaceAllAux] at h
    revert h
    cases hsp : split_at_seq p s with
    | none => intro h; exact Or.inl h
    | some ba =>
      rcases ba with ⟨b, a⟩
      intro h
      have hs : s = b ++ p ++ a := split_at_seq_eq p hsp
      have h2 : c ∈ b ++ r ++ replaceAllAux p r n a := h
      rcases List.mem_append.mp h2 with hbr | hrec
      · rcases List.mem_append.mp hbr with hb | hrr
        · exact Or.inl (by rw [hs]; simp [hb])
        · exact Or.inr hrr
      · rcases ih a hrec with ha | hrr
        · exact Or.inl (by rw [hs]; simp [ha])
        · exact Or.inr hrr

theorem not_mem_replaceAllAux_singleton (d : Char) (r : Str) (hr : d ∉ r) :
    ∀ fuel s, s.length ≤ fuel → d ∉ replaceAllAux [d] r fuel s := by
  intro fuel
  induction fuel with
  | zero =>
    intro s hlen h
    rw [List.length_eq_zero.mp (Nat.le_zero.mp hlen)] at h
    cases h
  | succ n ih =>
    intro s hlen h
    simp only [replaceAllAux] at h
    revert h
    cases hsp : split_at_seq [d] s with
    | none =>
      intro h
      exact split_at_seq_none_of_eq_none [d] hsp
        ((singleton_infix_iff_mem d s).mpr h)
    | some ba =>
      rcases ba with ⟨b, a⟩
      intro h
      have h2 : d ∈ b ++ r ++ replaceAllAux [d] r n a := h
      rcases List.mem_append.mp h2 with hbr | hrec
      · rcases List.mem_append.mp hbr with hb | hrr
        · exact split_at_seq_first [d] (by simp) hsp
            ((singleton_infix_iff_mem d b).mpr hb)
        · exact hr hrr
      · have hlt : a.length < s.length := split_at_seq_length_lt [d] (by simp) hsp
        exact ih a (by omega) hrec

theorem not_infix_self_replaceAllAux (p : Str) (hp : p ≠ [])
    (hnl : '\n' ∉ p) :
    ∀ fuel s, s.length ≤ fuel → ¬ p <:+: replaceAllAux p ['\n'] fuel s := by
  intro fuel
  induction fuel with
  | zero =>
    intro s hlen h
    rw [List.length_eq_zero.mp (Nat.le_zero.mp hlen)] at h
    exact hp (List.infix_nil.mp h)
  | succ n ih =>
    intro s hlen
    simp only [replaceAllAux]
    cases hsp : split_at_seq p s with
    | none => exact split_at_seq_none_of_eq_none p hsp
    | some ba =>
      rcases ba with ⟨b, a⟩
      intro h
      have h2 : p <:+: b ++ ['\n'] ++ replaceAllAux p ['\n'] n a := h
      rw [show b ++ ['\n'] ++ replaceAllAux p ['\n'] n a
          = b ++ '\n' :: replaceAllAux p ['\n'] n a from by simp] at h2
      rcases infix_split_of_not_mem p (replaceAllAux p ['\n'] n a) '\n' hnl b h2
        with hb | hrec
      · exact split_at_seq_first p hp hsp hb
      · have hlt : a.length < s.length := split_at_seq_length_lt p hp hsp
        exact ih a (by omega) hrec

theorem infix_of_infix_replaceAllAux (p q : Str) (hnl : '\n' ∉ q) :
    ∀ fuel s, q <:+: replaceAllAux p ['\n'] fuel s → q <:+: s := by
  intro fuel
  induction fuel with
  | zero => intro s h; exact h
  | succ n ih =>
    intro s
    simp only [replaceAllAux]
    cases hsp : split_at_seq p s with
    | none => intro h; exact h
    | some ba =>
      rcases ba with ⟨b, a⟩
      intro h
      have hs : s = b ++ p ++ a := split_at_seq_eq p hsp
      have h2 : q <:+: b ++ ['\n'] ++ replaceAllAux p ['\n'] n a := h
      rw [show b ++ ['\n'] ++ replaceAllAux p ['\n'] n a
          = b ++ '\n' :: replaceAllAux p ['\n'] n a from by simp] at h2
      rcases infix_split_of_not_mem q (replaceAllAux p ['\n'] n a) '\n' hnl b h2
        with hb | hrec
      · refine hb.trans ?_
        rw [hs]
        exact ((List.prefix_append b p).trans (List.prefix_append _ a)).isInfix
      · refine (ih a hrec).trans ?_
        rw [hs]
        exact (List.suffix_append _ a).isInfix

theorem not_infix_rustReplace_self (s p : Str) (hp : p ≠ []) (hnl : '\n' ∉ p) :
    ¬ p <:+: rustReplace s p ['\n'] :=
  not_infix_self_replaceAllAux p hp hnl s.length s (Nat.le_refl _)

theorem not_infix_rustReplace_transfer (s p q : Str) (hnl : '\n' ∉ q)
    (h : ¬ q <:+: s) : ¬ q <:+: rustReplace s p ['\n'] :=
  fun hc => h (infix_of_infix_replaceAllAux p q hnl s.length s hc)

theorem not_mem_rustReplace_of_not_mem (s p : Str) (r : Str) (c : Char)
    (hcr : c ∉ r) (h : c ∉ s) : c ∉ rustReplace s p r := by
  intro hc
  rcases mem_replaceAllAux p r c s.length s hc with h1 | h2
  · exact h h1
  · exact hcr h2

/-- A line as stored by the filter loop of `normalize_markdown_text`:
either the blank marker, or a right-trimmed, non-blank, non-noisy line. -/
def LineOk (m : Str) : Prop :=
  m = [] ∨ (rustTrimEnd m = m ∧ rustTrim m ≠ [] ∧
    isNoisyLine (rustTrim m) = false)

/-- A string free of the characters and tags which the opening replacement
chain of `normalize_markdown_text` rewrites away. -/
def TagFree (m : Str) : Prop :=
  '\r' ∉ m ∧ Char.ofNat 0xA0 ∉ m ∧
  ¬ str "<br>" <:+: m ∧ ¬ str "<br/>" <:+: m ∧ ¬ str "<br />" <:+: m ∧
  ¬ str "</p>" <:+: m ∧ ¬ str "</div>" <:+: m

/-- A single line additionally has no newline. -/
def LineClean (m : Str) : Prop := '\n' ∉ m ∧ TagFree m

/-- No two consecutive blank markers. -/
def blankSep (a b : Str) : Prop := a = [] → b ≠ []

/-- The first non-blank line is not a gemini UI prefix line. -/
def firstContentOk : List Str → Prop
  | [] => True
  | m :: rest =>
    if m = [] then firstContentOk rest
    else is_gemini_ui_prefix_line (rustTrim m) = false

/-- Canonical form of `normalize_markdown_text` output: empty, or a
newline-join of clean trimmed lines led and closed by content lines. -/
def CanonicalText (s : Str) : Prop :=
  s = [] ∨ ∃ ms h l,
    s = joinNl ms ∧
    ms.head? = some h ∧ h ≠ [] ∧ rustTrimStart h = h ∧
    is_gemini_ui_prefix_line (rustTrim h) = false ∧
    ms.getLast? = some l ∧ l ≠ [] ∧
    (∀ m ∈ ms, LineOk m ∧ LineClean m) ∧
    List.Chain' blankSep ms

theorem splitInclusiveNl_cons (c : Char) (t : Str) :
    splitInclusiveNl (c :: t) =
      (if c = '\n' then ['\n'] :: splitInclusiveNl t
       else
        match splitInclusiveNl t with
        | [] => [[c]]
        | l :: ls => (c :: l) :: ls) := rfl

theorem splitInclusiveNl_ne_nil (c : Char) (t : Str) :
    splitInclusiveNl (c :: t) ≠ [] := by
  rw [splitInclusiveNl_cons]
  by_cases h : c = '\n'
  · rw [if_pos h]
    simp
  · rw [if_neg h]
    cases splitInclusiveNl t with
    | nil => simp
    | cons l ls => simp

theorem flatten_splitInclusiveNl (y : Str) : (splitInclusiveNl y).flatten = y := by
  induction y with
  | nil => rfl
  | cons c t ih =>
    rw [splitInclusiveNl_cons]
    by_cases h : c = '\n'
    · rw [if_pos h, h]
      simp only [List.flatten_cons, List.singleton_append]
      rw [ih]
    · rw [if_neg h]
      cases hsp : splitInclusiveNl t with
      | nil =>
        cases t with
        | nil => rfl
        | cons d t' => exact absurd hsp (splitInclusiveNl_ne_nil d t')
      | cons l ls =>
        rw [← ih, hsp]
        simp

theorem splitInclusiveNl_no_newline (m : Str) (hm : m ≠ [])
    (hnl : '\n' ∉ m) : splitInclusiveNl m = [m] := by
  induction m with
  | nil => exact absurd rfl hm
  | cons c t ih =>
    rw [splitInclusiveNl_cons]
    have hc : c ≠ '\n' := fun h => hnl (h ▸ List.mem_cons_self c t)
    rw [if_neg hc]
    cases t with
    | nil => rfl
    | cons d t' =>
      rw [ih (by simp) (fun h => hnl (List.mem_cons_of_mem c h))]

theorem splitInclusiveNl_append_newline (m z : Str) (hnl : '\n' ∉ m) :
    splitInclusiveNl (m ++ '\n' :: z) =
      (m ++ ['\n']) :: splitInclusiveNl z := by
  induction m with
  | nil =>
    show splitInclusiveNl ('\n' :: z) = _
    rw [splitInclusiveNl_cons, if_pos rfl]
    rfl
  | cons c m' ih =>
    have hc : c ≠ '\n' := fun h => hnl (h ▸ List.mem_cons_self c m')
    show splitInclusiveNl (c :: (m' ++ '\n' :: z)) = _
    rw [splitInclusiveNl_cons, if_neg hc,
      ih (fun h => hnl (List.mem_cons_of_mem c h))]
    exact rfl

theorem stripLineEnding_no_newline (m : Str) (hnl : '\n' ∉ m) :
    stripLineEnding m = m := by
  unfold stripLineEnding
  split
  · rename_i t heq
    exfalso
    apply hnl
    rw [← List.mem_reverse, heq]
    exact List.mem_cons_self _ _
  · rename_i t heq
    exfalso
    apply hnl
    rw [← List.mem_reverse, heq]
    exact List.mem_cons_self _ _
  · rfl

theorem stripLineEnding_append_newline (m : Str) (hr : '\r' ∉ m) :
    stripLineEnding (m ++ ['\n']) = m := by
  unfold stripLineEnding
  have hrev : (m ++ ['\n']).reverse = '\n' :: m.reverse := by simp
  split
  · rename_i t heq
    exfalso
    apply hr
    rw [hrev] at heq
    injection heq with h1 h2
    rw [← List.mem_reverse, h2]
    exact List.mem_cons_self _ _
  · rename_i t heq
    rw [hrev] at heq
    injection heq with h1 h2
    rw [← h2, List.reverse_reverse]
  · rename_i hne1 hne2
    exact absurd hrev (hne2 m.reverse)

theorem rustLines_joinNl : ∀ ms : List Str, ms ≠ [] →
    (∀ m ∈ ms, '\n' ∉ m ∧ '\r' ∉ m) → ms.getLast? ≠ some [] →
    rustLines (joinNl ms) = ms := by
  intro ms
  induction ms with
  | nil => intro h; exact absurd rfl h
  | cons m rest ih =>
    intro _ hfree hlast
    cases rest with
    | nil =>
      have hm : m ≠ [] := by
        intro h
        exact hlast (by rw [h]; rfl)
      show rustLines m = [m]
      unfold rustLines
      rw [splitInclusiveNl_no_newline m hm (hfree m (by simp)).1,
        List.map_singleton, stripLineEnding_no_newline m (hfree m (by simp)).1]
    | cons m2 rest' =>
      show rustLines (m ++ '\n' :: joinNl (m2 :: rest')) = _
      unfold rustLines
      rw [splitInclusiveNl_append_newline m _ (hfree m (by simp)).1,
        List.map_cons, stripLineEnding_append_newline m (hfree m (by simp)).2]
      have htl := ih (by simp)
        (fun x hx => hfree x (List.mem_cons_of_mem m hx))
        (by rw [← List.getLast?_cons_cons]; exact hlast)
      unfold rustLines at htl
      rw [htl]

theorem joinNl_head? (ms : List Str) (h : Str) (hh : ms.head? = some h)
    (hne : h ≠ []) : (joinNl ms).head? = h.head? := by
  cases ms with
  | nil => cases hh
  | cons m rest =>
    cases hh
    cases rest with
    | nil => rfl
    | cons m2 rest' =>
      show (h ++ '\n' :: joinNl (m2 :: rest')).head? = h.head?
      exact List.head?_append_of_ne_nil h hne

theorem joinNl_ne_nil_of_two (a b : Str) (rest : List Str) :
    joinNl (a :: b :: rest) ≠ [] := by
  show a ++ '\n' :: joinNl (b :: rest) ≠ []
  simp

theorem getLast?_cons_of_ne_nil (c : Char) (w : Str) (hw : w ≠ []) :
    (c :: w).getLast? = w.getLast? := by
  cases w with
  | nil => exact absurd rfl hw
  | cons d t => exact List.getLast?_cons_cons

theorem joinNl_getLast? : ∀ (ms : List Str) (l : Str),
    ms.getLast? = some l → l ≠ [] →
    (joinNl ms).getLast? = l.getLast? := by
  intro ms
  induction ms with
  | nil => intro l hl; cases hl
  | cons m rest ih =>
    intro l hl hne
    cases rest with
    | nil =>
      rw [List.getLast?_singleton] at hl
      cases hl
      rfl
    | cons m2 rest' =>
      have hl' : (m2 :: rest').getLast? = some l := by
        rw [← List.getLast?_cons_cons]
        exact hl
      show (m ++ '\n' :: joinNl (m2 :: rest')).getLast? = l.getLast?
      rw [List.getLast?_append_of_ne_nil _ (by simp)]
      have hj : joinNl (m2 :: rest') ≠ [] := by
        cases rest' with
        | nil =>
          rw [List.getLast?_singleton] at hl'
          cases hl'
          exact hne
        | cons m3 rest'' => exact joinNl_ne_nil_of_two m2 m3 rest''
      rw [getLast?_cons_of_ne_nil '\n' _ hj]
      exact ih l hl' hne

theorem mem_joinNl (c : Char) : ∀ ms : List Str,
    c ∈ joinNl ms → c = '\n' ∨ ∃ m ∈ ms, c ∈ m := by
  intro ms
  induction ms with
  | nil => intro h; cases h
  | cons m rest ih =>
    cases rest with
    | nil =>
      intro h
      exact Or.inr ⟨m, by simp, h⟩
    | cons m2 rest' =>
      intro h
      have h2 : c ∈ m ++ '\n' :: joinNl (m2 :: rest') := h
      rcases List.mem_append.mp h2 with hm | htl
      · exact Or.inr ⟨m, by simp, hm⟩
      · rcases List.mem_cons.mp htl with hc | hj
        · exact Or.inl hc
        · rcases ih hj with h1 | ⟨m', hm', hc'⟩
          · exact Or.inl h1
          · exact Or.inr ⟨m', by simp [hm'], hc'⟩

theorem infix_joinNl_cases (q : Str) (hq : q ≠ []) (hnl : '\n' ∉ q) :
    ∀ ms : List Str, q <:+: joinNl ms → ∃ m ∈ ms, q <:+: m := by
  intro ms
  induction ms with
  | nil =>
    intro h
    exact absurd (List.infix_nil.mp h) hq
  | cons m rest ih =>
    cases rest with
    | nil =>
      intro h
      exact ⟨m, by simp, h⟩
    | cons m2 rest' =>
      intro h
      have h2 : q <:+: m ++ '\n' :: joinNl (m2 :: rest') := h
      rcases infix_split_of_not_mem q (joinNl (m2 :: rest')) '\n' hnl m h2
        with hm | hj
      · exact ⟨m, by simp, hm⟩
      · rcases ih hj with ⟨m', hm', hq'⟩
        exact ⟨m', by simp [hm'], hq'⟩

theorem joinNl_getLast_blank : ∀ ms : List Str, ms.getLast? = some [] →
    2 ≤ ms.length → joinNl ms = joinNl ms.dropLast ++ ['\n'] := by
  intro ms
  induction ms with
  | nil => intro h; cases h
  | cons m rest ih =>
    intro hl hlen
    cases rest with
    | nil => simp at hlen
    | cons m2 rest' =>
      cases rest' with
      | nil =>
        have hm2 : m2 = [] := by simpa using hl
        subst hm2
        show m ++ '\n' :: joinNl [[]] = joinNl [m] ++ ['\n']
        simp [joinNl]
      | cons m3 rest'' =>
        have hl' : (m2 :: m3 :: rest'').getLast? = some [] := by
          rw [← List.getLast?_cons_cons]
          exact hl
        have ihh := ih hl' (by simp)
        have hdrop : (m :: m2 :: m3 :: rest'').dropLast
            = m :: (m2 :: m3 :: rest'').dropLast :=
          List.dropLast_cons_of_ne_nil (by simp)
        show m ++ '\n' :: joinNl (m2 :: m3 :: rest'') = _
        rw [hdrop, ihh]
        cases hX : (m2 :: m3 :: rest'').dropLast with
        | nil =>
          exfalso
          have := congrArg List.length hX
          simp [List.length_dropLast] at this
        | cons x xs =>
          show m ++ '\n' :: (joinNl (x :: xs) ++ ['\n'])
            = (m ++ '\n' :: joinNl (x :: xs)) ++ ['\n']
          simp

theorem keep_lines_id : ∀ ms : List Str, (∀ m ∈ ms, LineOk m) →
    ∀ seen : Bool, (seen = false → firstContentOk ms) →
    keep_lines ms seen = ms := by
  intro ms
  induction ms with
  | nil => intro _ seen _; rfl
  | cons m rest ih =>
    intro hok seen hfco
    rcases hok m (List.mem_cons_self m rest) with hm | ⟨hte, htr, hnoisy⟩
    · subst hm
      rw [show keep_lines ([] :: rest) seen = [] :: keep_lines rest seen
        from rfl]
      rw [ih (fun x hx => hok x (List.mem_cons_of_mem [] hx)) seen
        (fun hs => hfco hs)]
    · have hmne : m ≠ [] := by
        intro hc
        apply htr
        rw [hc]
        rfl
      simp only [keep_lines]
      rw [hte, if_neg htr, if_neg (by rw [hnoisy]; simp)]
      have hkeep : keep_lines rest true = rest :=
        ih (fun x hx => hok x (List.mem_cons_of_mem m hx)) true (by simp)
      cases seen with
      | true =>
        rw [if_neg (fun hc => by simpa using hc.1), hkeep]
      | false =>
        have hpre : is_gemini_ui_prefix_line (rustTrim m) = false := by
          have := hfco rfl
          simp only [firstContentOk, if_neg hmne] at this
          exact this
        rw [if_neg (fun hc => by rw [hpre] at hc; simpa using hc.2), hkeep]

theorem collapse_blank_id : ∀ ms : List Str, List.Chain' blankSep ms →
    ∀ b : Bool, (b = true → ms.head? ≠ some []) →
    collapse_blank ms b = ms := by
  intro ms
  induction ms with
  | nil => intro _ b _; rfl
  | cons m rest ih =>
    intro hch b hb
    by_cases hm : m = []
    · subst hm
      cases b with
      | true => exact absurd rfl (hb rfl)
      | false =>
        show [] :: collapse_blank rest true = [] :: rest
        rw [ih hch.tail true (fun _ hc => by
          rcases rest with _ | ⟨r, rest'⟩
          · cases hc
          · have hr : r = [] := by simpa using hc
            have := (List.chain'_cons'.mp hch).1 r (by rw [hr]; rfl)
            exact this rfl (by rw [← hr]))]
    · show (if m = [] then _ else m :: collapse_blank rest false) = m :: rest
      rw [if_neg hm, ih hch.tail false (by simp)]

theorem mem_collapse_blank : ∀ ms : List Str, ∀ b : Bool, ∀ m : Str,
    m ∈ collapse_blank ms b → m ∈ ms := by
  intro ms
  induction ms with
  | nil => intro b m h; cases h
  | cons m0 rest ih =>
    intro b m h
    by_cases hm0 : m0 = []
    · subst hm0
      show m ∈ [] :: rest
      revert h
      show m ∈ (if ([] : Str) = [] then _ else _) → _
      rw [if_pos rfl]
      cases b with
      | true =>
        intro h
        exact List.mem_cons_of_mem [] (ih true m h)
      | false =>
        intro h
        rcases List.mem_cons.mp h with h1 | h2
        · exact List.mem_cons.mpr (Or.inl h1)
        · exact List.mem_cons_of_mem [] (ih true m h2)
    · revert h
      show m ∈ (if m0 = [] then _ else m0 :: collapse_blank rest false) → _
      rw [if_neg hm0]
      intro h
      rcases List.mem_cons.mp h with h1 | h2
      · exact List.mem_cons.mpr (Or.inl h1)
      · exact List.mem_cons_of_mem m0 (ih false m h2)

theorem collapse_blank_chain : ∀ ms : List Str, ∀ b : Bool,
    List.Chain' blankSep (collapse_blank ms b) ∧
    (b = true → ∀ hd, (collapse_blank ms b).head? = some hd → hd ≠ []) := by
  intro ms
  induction ms with
  | nil =>
    intro b
    exact ⟨List.chain'_nil, fun _ hd hc => by cases hc⟩
  | cons m rest ih =>
    intro b
    by_cases hm : m = []
    · subst hm
      cases b with
      | true =>
        show List.Chain' blankSep (collapse_blank rest true) ∧ _
        exact ⟨(ih true).1, fun _ => (ih true).2 rfl⟩
      | false =>
        constructor
        · show List.Chain' blankSep ([] :: collapse_blank rest true)
          refine List.chain'_cons'.mpr ⟨?_, (ih true).1⟩
          intro y hy
          exact fun _ => (ih true).2 rfl y hy
        · intro hc
          cases hc
    · have hstep : collapse_blank (m :: rest) b
          = m :: collapse_blank rest false := by
        simp only [collapse_blank]
        rw [if_neg hm]
      constructor
      · rw [hstep]
        refine List.chain'_cons'.mpr ⟨?_, (ih false).1⟩
        intro y _
        exact fun hc => absurd hc hm
      · intro _ hd hhd
        rw [hstep] at hhd
        have : hd = m := by simpa using hhd.symm
        rw [this]
        exact hm

theorem collapse_blank_firstContentOk : ∀ ms : List Str, ∀ b : Bool,
    firstContentOk ms → firstContentOk (collapse_blank ms b) := by
  intro ms
  induction ms with
  | nil => intro b _; trivial
  | cons m rest ih =>
    intro b hf
    by_cases hm : m = []
    · subst hm
      have hf' : firstContentOk rest := by
        simpa [firstContentOk] using hf
      cases b with
      | true => exact ih true hf'
      | false =>
        show firstContentOk ([] :: collapse_blank rest true)
        simp only [firstContentOk, if_pos rfl]
        exact ih true hf'
    · have hf' : is_gemini_ui_prefix_line (rustTrim m) = false := by
        simpa [firstContentOk, hm] using hf
      show firstContentOk (if m = [] then _ else m :: collapse_blank rest false)
      rw [if_neg hm]
      simp only [firstContentOk, if_neg hm]
      exact hf'

theorem keep_lines_mem : ∀ lines : List Str, ∀ seen : Bool, ∀ m : Str,
    m ∈ keep_lines lines seen → m = [] ∨ ∃ l ∈ lines, m = rustTrimEnd l ∧
      rustTrim (rustTrimEnd l) ≠ [] ∧
      isNoisyLine (rustTrim (rustTrimEnd l)) = false := by
  intro lines
  induction lines with
  | nil => intro seen m h; cases h
  | cons line rest ih =>
    intro seen m h
    simp only [keep_lines] at h
    by_cases h1 : rustTrim (rustTrimEnd line) = []
    · rw [if_pos h1] at h
      rcases List.mem_cons.mp h with hm | hm
      · exact Or.inl hm
      · rcases ih seen m hm with hm1 | ⟨l, hl, hrest⟩
        · exact Or.inl hm1
        · exact Or.inr ⟨l, List.mem_cons_of_mem line hl, hrest⟩
    · rw [if_neg h1] at h
      by_cases h2 : isNoisyLine (rustTrim (rustTrimEnd line)) = true
      · rw [if_pos h2] at h
        rcases ih seen m h with hm1 | ⟨l, hl, hrest⟩
        · exact Or.inl hm1
        · exact Or.inr ⟨l, List.mem_cons_of_mem line hl, hrest⟩
      · rw [if_neg h2] at h
        by_cases h3 : ¬ seen = true ∧
            is_gemini_ui_prefix_line (rustTrim (rustTrimEnd line)) = true
        · rw [if_pos h3] at h
          rcases ih seen m h with hm1 | ⟨l, hl, hrest⟩
          · exact Or.inl hm1
          · exact Or.inr ⟨l, List.mem_cons_of_mem line hl, hrest⟩
        · rw [if_neg h3] at h
          rcases List.mem_cons.mp h with hm | hm
          · exact Or.inr ⟨line, List.mem_cons_self line rest, hm, h1,
              Bool.eq_false_iff.mpr h2⟩
          · rcases ih true m hm with hm1 | ⟨l, hl, hrest⟩
            · exact Or.inl hm1
            · exact Or.inr ⟨l, List.mem_cons_of_mem line hl, hrest⟩

set_option maxHeartbeats 1600000 in
theorem keep_lines_firstContentOk : ∀ lines : List Str,
    firstContentOk (keep_lines lines false) := by
  intro lines
  induction lines with
  | nil => trivial
  | cons line rest ih =>
    simp only [keep_lines]
    by_cases h1 : rustTrim (rustTrimEnd line) = []
    · rw [if_pos h1]
      show firstContentOk ([] :: keep_lines rest false)
      simp only [firstContentOk, if_pos rfl]
      exact ih
    · rw [if_neg h1]
      by_cases h2 : isNoisyLine (rustTrim (rustTrimEnd line)) = true
      · rw [if_pos h2]
        exact ih
      · rw [if_neg h2]
        rcases Bool.eq_false_or_eq_true
          (is_gemini_ui_prefix_line (rustTrim (rustTrimEnd line)))
          with hpre | hpre
        · rw [if_pos ⟨by simp, hpre⟩]
          exact ih
        · rw [if_neg (fun hc => by rw [hpre] at hc; simpa using hc.2)]
          have hne : rustTrimEnd line ≠ [] := by
            intro hc
            apply h1
            rw [hc]
            rfl
          show firstContentOk (rustTrimEnd line :: keep_lines rest true)
          simp only [firstContentOk, if_neg hne]
          exact hpre

theorem normalize_markdown_text_id_of_canonical (s : Str)
    (hcanon : CanonicalText s) : normalize_markdown_text s = s := by
  rcases hcanon with rfl | ⟨ms, hd, lst, rfl, hh, hdne, hts, hpre, hl, hlne,
    hmem, hchain⟩
  · rfl
  · have hr : '\r' ∉ joinNl ms := by
      intro hc
      rcases mem_joinNl '\r' ms hc with h | ⟨m, hm, hcm⟩
      · exact absurd h (by decide)
      · exact ((hmem m hm).2).2.1 hcm
    have hnb : Char.ofNat 0xA0 ∉ joinNl ms := by
      intro hc
      rcases mem_joinNl (Char.ofNat 0xA0) ms hc with h | ⟨m, hm, hcm⟩
      · exact absurd h (by decide)
      · exact ((hmem m hm).2).2.2.1 hcm
    have hbr : ¬ str "<br>" <:+: joinNl ms := by
      intro hc
      rcases infix_joinNl_cases _ (by decide) (by decide) ms hc
        with ⟨m, hm, hqm⟩
      exact ((hmem m hm).2).2.2.2.1 hqm
    have hbr2 : ¬ str "<br/>" <:+: joinNl ms := by
      intro hc
      rcases infix_joinNl_cases _ (by decide) (by decide) ms hc
        with ⟨m, hm, hqm⟩
      exact ((hmem m hm).2).2.2.2.2.1 hqm
    have hbr3 : ¬ str "<br />" <:+: joinNl ms := by
      intro hc
      rcases infix_joinNl_cases _ (by decide) (by decide) ms hc
        with ⟨m, hm, hqm⟩
      exact ((hmem m hm).2).2.2.2.2.2.1 hqm
    have hp1 : ¬ str "</p>" <:+: joinNl ms := by
      intro hc
      rcases infix_joinNl_cases _ (by decide) (by decide) ms hc
        with ⟨m, hm, hqm⟩
      exact ((hmem m hm).2).2.2.2.2.2.2.1 hqm
    have hp2 : ¬ str "</div>" <:+: joinNl ms := by
      intro hc
      rcases infix_joinNl_cases _ (by decide) (by decide) ms hc
        with ⟨m, hm, hqm⟩
      exact ((hmem m hm).2).2.2.2.2.2.2.2 hqm
    have e1 : rustReplace (joinNl ms) (str "\r") [] = joinNl ms :=
      rustReplace_id_of_no_occurrence _ _ _ (fun hc =>
        hr ((singleton_infix_iff_mem '\r' (joinNl ms)).mp hc))
    have e2 : rustReplace (joinNl ms) [Char.ofNat 0xA0] [' '] = joinNl ms :=
      rustReplace_id_of_no_occurrence _ _ _ (fun hc =>
        hnb ((singleton_infix_iff_mem (Char.ofNat 0xA0) (joinNl ms)).mp hc))
    have e3 : rustReplace (joinNl ms) (str "<br>") ['\n'] = joinNl ms :=
      rustReplace_id_of_no_occurrence _ _ _ hbr
    have e4 : rustReplace (joinNl ms) (str "<br/>") ['\n'] = joinNl ms :=
      rustReplace_id_of_no_occurrence _ _ _ hbr2
    have e5 : rustReplace (joinNl ms) (str "<br />") ['\n'] = joinNl ms :=
      rustReplace_id_of_no_occurrence _ _ _ hbr3
    have e6 : rustReplace (joinNl ms) (str "</p>") ['\n'] = joinNl ms :=
      rustReplace_id_of_no_occurrence _ _ _ hp1
    have e7 : rustReplace (joinNl ms) (str "</div>") ['\n'] = joinNl ms :=
      rustReplace_id_of_no_occurrence _ _ _ hp2
    have hstep : normalize_step1 (joinNl ms) = joinNl ms := by
      unfold normalize_step1
      rw [e1, e2, e3, e4, e5, e6, e7]
    have hlines : rustLines (joinNl ms) = ms := by
      refine rustLines_joinNl ms ?_ ?_ ?_
      · intro hc
        rw [hc] at hh
        cases hh
      · intro m hm
        exact ⟨((hmem m hm).2).1, ((hmem m hm).2).2.1⟩
      · intro hc
        rw [hl] at hc
        injection hc with hlsteq
        exact hlne hlsteq
    have hfco : firstContentOk ms := by
      cases ms with
      | nil => cases hh
      | cons m0 rest =>
        cases hh
        simp only [firstContentOk, if_neg hdne]
        exact hpre
    have hkeep : keep_lines ms false = ms :=
      keep_lines_id ms (fun m hm => (hmem m hm).1) false (fun _ => hfco)
    have hcoll : collapse_blank ms false = ms := by
      refine collapse_blank_id ms hchain false (by simp)
    obtain ⟨c, hc⟩ : ∃ c, hd.head? = some c := by
      cases hd with
      | nil => exact absurd rfl hdne
      | cons c t => exact ⟨c, rfl⟩
    have hcw : rustIsWhitespace c = false := by
      apply rustTrimStart_head_not_ws hd c
      rw [hts]
      exact hc
    have hts_id : rustTrimStart (joinNl ms) = joinNl ms := by
      refine rustTrimStart_eq_self _ c ?_ hcw
      rw [joinNl_head? ms hd hh hdne]
      exact hc
    have hlstmem : lst ∈ ms := List.mem_of_mem_getLast? hl
    have hlstok : rustTrimEnd lst = lst := by
      rcases (hmem lst hlstmem).1 with h | ⟨h1, _, _⟩
      · exact absurd h hlne
      · exact h1
    obtain ⟨d, hdl, hdw⟩ := contentline_last_not_ws lst hlstok hlne
    have hte_id : rustTrimEnd (joinNl ms) = joinNl ms := by
      refine rustTrimEnd_eq_self _ d ?_ hdw
      rw [joinNl_getLast? ms lst hl hlne]
      exact hdl
    show rustTrim (joinNl (collapse_blank (keep_lines (rustLines
      (normalize_step1 (joinNl ms))) false) false)) = joinNl ms
    rw [hstep, hlines, hkeep, hcoll]
    unfold rustTrim
    rw [hts_id, hte_id]

theorem lineClean_nil : LineClean [] := by
  refine ⟨by simp, by simp, by simp, ?_, ?_, ?_, ?_, ?_⟩ <;>
    exact fun h => absurd (List.infix_nil.mp h) (by decide)

theorem lineClean_of_infix (M m : Str) (h : LineClean M) (hm : m <:+: M) :
    LineClean m := by
  obtain ⟨h1, h2, h3, h4, h5, h6, h7, h8⟩ := h
  exact ⟨fun hc => h1 (hm.subset hc), fun hc => h2 (hm.subset hc),
    fun hc => h3 (hm.subset hc), fun hc => h4 (hc.trans hm),
    fun hc => h5 (hc.trans hm), fun hc => h6 (hc.trans hm),
    fun hc => h7 (hc.trans hm), fun hc => h8 (hc.trans hm)⟩

theorem tagFree_of_infix (M m : Str) (h : TagFree M) (hm : m <:+: M) :
    TagFree m := by
  obtain ⟨h2, h3, h4, h5, h6, h7, h8⟩ := h
  exact ⟨fun hc => h2 (hm.subset hc), fun hc => h3 (hm.subset hc),
    fun hc => h4 (hc.trans hm), fun hc => h5 (hc.trans hm),
    fun hc => h6 (hc.trans hm), fun hc => h7 (hc.trans hm),
    fun hc => h8 (hc.trans hm)⟩

theorem step1_tagFree (x : Str) : TagFree (normalize_step1 x) := by
  unfold normalize_step1
  set s1 := rustReplace x (str "\r") [] with hs1
  set s2 := rustReplace s1 [Char.ofNat 0xA0] [' '] with hs2
  set s3 := rustReplace s2 (str "<br>") ['\n'] with hs3
  set s4 := rustReplace s3 (str "<br/>") ['\n'] with hs4
  set s5 := rustReplace s4 (str "<br />") ['\n'] with hs5
  set s6 := rustReplace s5 (str "</p>") ['\n'] with hs6
  have hr1 : '\r' ∉ s1 := by
    rw [hs1]
    exact not_mem_replaceAllAux_singleton '\r' [] (by simp) x.length x
      (Nat.le_refl _)
  have hr2 : '\r' ∉ s2 := not_mem_rustReplace_of_not_mem s1 _ _ '\r'
    (by decide) hr1
  have hr3 : '\r' ∉ s3 := not_mem_rustReplace_of_not_mem s2 _ _ '\r'
    (by decide) hr2
  have hr4 : '\r' ∉ s4 := not_mem_rustReplace_of_not_mem s3 _ _ '\r'
    (by decide) hr3
  have hr5 : '\r' ∉ s5 := not_mem_rustReplace_of_not_mem s4 _ _ '\r'
    (by decide) hr4
  have hr6 : '\r' ∉ s6 := not_mem_rustReplace_of_not_mem s5 _ _ '\r'
    (by decide) hr5
  have hr7 : '\r' ∉ rustReplace s6 (str "</div>") ['\n'] :=
    not_mem_rustReplace_of_not_mem s6 _ _ '\r' (by decide) hr6
  have hb2 : Char.ofNat 0xA0 ∉ s2 := by
    rw [hs2]
    exact not_mem_replaceAllAux_singleton (Char.ofNat 0xA0) [' ']
      (by decide) s1.length s1 (Nat.le_refl _)
  have hb3 : Char.ofNat 0xA0 ∉ s3 := not_mem_rustReplace_of_not_mem s2 _ _ _
    (by decide) hb2
  have hb4 : Char.ofNat 0xA0 ∉ s4 := not_mem_rustReplace_of_not_mem s3 _ _ _
    (by decide) hb3
  have hb5 : Char.ofNat 0xA0 ∉ s5 := not_mem_rustReplace_of_not_mem s4 _ _ _
    (by decide) hb4
  have hb6 : Char.ofNat 0xA0 ∉ s6 := not_mem_rustReplace_of_not_mem s5 _ _ _
    (by decide) hb5
  have hb7 : Char.ofNat 0xA0 ∉ rustReplace s6 (str "</div>") ['\n'] :=
    not_mem_rustReplace_of_not_mem s6 _ _ _ (by decide) hb6
  have h33 : ¬ str "<br>" <:+: s3 :=
    not_infix_rustReplace_self s2 _ (by decide) (by decide)
  have h34 : ¬ str "<br>" <:+: s4 :=
    not_infix_rustReplace_transfer s3 _ _ (by decide) h33
  have h35 : ¬ str "<br>" <:+: s5 :=
    not_infix_rustReplace_transfer s4 _ _ (by decide) h34
  have h36 : ¬ str "<br>" <:+: s6 :=
    not_infix_rustReplace_transfer s5 _ _ (by decide) h35
  have h37 : ¬ str "<br>" <:+: rustReplace s6 (str "</div>") ['\n'] :=
    not_infix_rustReplace_transfer s6 _ _ (by decide) h36
  have h44 : ¬ str "<br/>" <:+: s4 :=
    not_infix_rustReplace_self s3 _ (by decide) (by decide)
  have h45 : ¬ str "<br/>" <:+: s5 :=
    not_infix_rustReplace_transfer s4 _ _ (by decide) h44
  have h46 : ¬ str "<br/>" <:+: s6 :=
    not_infix_rustReplace_transfer s5 _ _ (by decide) h45
  have h47 : ¬ str "<br/>" <:+: rustReplace s6 (str "</div>") ['\n'] :=
    not_infix_rustReplace_transfer s6 _ _ (by decide) h46
  have h55 : ¬ str "<br />" <:+: s5 :=
    not_infix_rustReplace_self s4 _ (by decide) (by decide)
  have h56 : ¬ str "<br />" <:+: s6 :=
    not_infix_rustReplace_transfer s5 _ _ (by decide) h55
  have h57 : ¬ str "<br />" <:+: rustReplace s6 (str "</div>") ['\n'] :=
    not_infix_rustReplace_transfer s6 _ _ (by decide) h56
  have h66 : ¬ str "</p>" <:+: s6 :=
    not_infix_rustReplace_self s5 _ (by decide) (by decide)
  have h67 : ¬ str "</p>" <:+: rustReplace s6 (str "</div>") ['\n'] :=
    not_infix_rustReplace_transfer s6 _ _ (by decide) h66
  have h77 : ¬ str "</div>" <:+: rustReplace s6 (str "</div>") ['\n'] :=
    not_infix_rustReplace_self s6 _ (by decide) (by decide)
  exact ⟨hr7, hb7, h37, h47, h57, h67, h77⟩

theorem stripLineEnding_prefix_self (l : Str) : stripLineEnding l <+: l := by
  unfold stripLineEnding
  split
  · rename_i t heq
    refine ⟨['\r', '\n'], ?_⟩
    rw [← List.reverse_reverse l, heq]
    simp
  · rename_i t heq
    refine ⟨['\n'], ?_⟩
    rw [← List.reverse_reverse l, heq]
    simp
  · exact List.prefix_refl _

theorem splitInclusiveNl_seg_shape : ∀ y : Str, ∀ seg ∈ splitInclusiveNl y,
    ∃ m, '\n' ∉ m ∧ (seg = m ∨ seg = m ++ ['\n']) := by
  intro y
  induction y with
  | nil => intro seg h; cases h
  | cons c t ih =>
    intro seg hseg
    rw [splitInclusiveNl_cons] at hseg
    by_cases hc : c = '\n'
    · rw [if_pos hc] at hseg
      rcases List.mem_cons.mp hseg with h1 | h2
      · exact ⟨[], by simp, Or.inr (by rw [h1]; rfl)⟩
      · exact ih seg h2
    · rw [if_neg hc] at hseg
      revert hseg
      cases hsp : splitInclusiveNl t with
      | nil =>
        intro hseg
        rcases List.mem_cons.mp hseg with h1 | h2
        · exact ⟨[c], fun hmc => hc (List.mem_singleton.mp hmc).symm,
            Or.inl h1⟩
        · cases h2
      | cons l ls =>
        intro hseg
        rcases List.mem_cons.mp hseg with h1 | h2
        · rcases ih l (by rw [hsp]; exact List.mem_cons_self l ls)
            with ⟨m, hm, hlm | hlm⟩
          · refine ⟨c :: m, ?_, Or.inl (by rw [h1, hlm])⟩
            intro hcm
            rcases List.mem_cons.mp hcm with h3 | h3
            · exact hc h3.symm
            · exact hm h3
          · refine ⟨c :: m, ?_, Or.inr (by rw [h1, hlm]; rfl)⟩
            intro hcm
            rcases List.mem_cons.mp hcm with h3 | h3
            · exact hc h3.symm
            · exact hm h3
        · exact ih seg (by rw [hsp]; exact List.mem_cons_of_mem l h2)

theorem rustLines_infix_self (y : Str) : ∀ l ∈ rustLines y, l <:+: y := by
  intro l hl
  rcases List.mem_map.mp hl with ⟨seg, hseg, rfl⟩
  have h1 : seg <:+: y := by
    rw [← flatten_splitInclusiveNl y]
    exact List.infix_of_mem_flatten hseg
  exact (stripLineEnding_prefix_self seg).isInfix.trans h1

theorem rustLines_no_newline (y : Str) (hy : '\r' ∉ y) :
    ∀ l ∈ rustLines y, '\n' ∉ l := by
  intro l hl
  rcases List.mem_map.mp hl with ⟨seg, hseg, rfl⟩
  rcases splitInclusiveNl_seg_shape y seg hseg with ⟨m, hm, hseg2 | hseg2⟩
  · rw [hseg2, stripLineEnding_no_newline m hm]
    exact hm
  · have hrm : '\r' ∉ m := by
      intro hc
      apply hy
      have hsub : seg ⊆ y := by
        rw [← flatten_splitInclusiveNl y]
        exact (List.infix_of_mem_flatten hseg).subset
      exact hsub (by rw [hseg2]; exact List.mem_append.mpr (Or.inl hc))
    rw [hseg2, stripLineEnding_append_newline m hrm]
    exact hm

theorem canonical_core : ∀ (hd0 : Str) (rest : List Str), hd0 ≠ [] →
    (∀ m ∈ hd0 :: rest, LineOk m ∧ LineClean m) →
    List.Chain' blankSep (hd0 :: rest) →
    is_gemini_ui_prefix_line (rustTrim hd0) = false →
    (hd0 :: rest).getLast? ≠ some [] →
    CanonicalText (rustTrim (joinNl (hd0 :: rest))) := by
  intro hd0 rest hne hmem hchain hpre0 hlb
  obtain ⟨hte0, htr0, hnoisy0⟩ : rustTrimEnd hd0 = hd0 ∧ rustTrim hd0 ≠ [] ∧
      isNoisyLine (rustTrim hd0) = false := by
    rcases (hmem hd0 (List.mem_cons_self hd0 rest)).1 with h | h
    · exact absurd h hne
    · exact h
  have hts0 : rustTrimStart hd0 ≠ [] := rustTrimStart_ne_nil_of_trim hd0 htr0
  have hstep1 : rustTrimStart (joinNl (hd0 :: rest))
      = joinNl (rustTrimStart hd0 :: rest) := by
    cases rest with
    | nil => rfl
    | cons m1 rest' =>
      show rustTrimStart (hd0 ++ '\n' :: joinNl (m1 :: rest')) = _
      rw [rustTrimStart_append hd0 _ hts0]
      rfl
  obtain ⟨lst, hlms, hlne, hteL⟩ : ∃ lst,
      (rustTrimStart hd0 :: rest).getLast? = some lst ∧ lst ≠ [] ∧
      rustTrimEnd lst = lst := by
    cases rest with
    | nil =>
      exact ⟨rustTrimStart hd0, List.getLast?_singleton _, hts0,
        rustTrimEnd_trimStart hd0 hte0 htr0⟩
    | cons m1 rest' =>
      obtain ⟨l, hl⟩ : ∃ l, (m1 :: rest').getLast? = some l :=
        ⟨(m1 :: rest').getLast (by simp), List.getLast?_eq_getLast _ (by simp)⟩
      have hlcs : (hd0 :: m1 :: rest').getLast? = some l := by
        rw [List.getLast?_cons_cons]
        exact hl
      have hlne' : l ≠ [] := by
        intro hc
        apply hlb
        rw [hlcs, hc]
      have hlok := (hmem l (List.mem_of_mem_getLast? hlcs)).1
      rcases hlok with h | ⟨h1, _, _⟩
      · exact absurd h hlne'
      · exact ⟨l, by rw [List.getLast?_cons_cons]; exact hl, hlne', h1⟩
  obtain ⟨d, hdl, hdw⟩ := contentline_last_not_ws lst hteL hlne
  have hstep2 : rustTrimEnd (joinNl (rustTrimStart hd0 :: rest))
      = joinNl (rustTrimStart hd0 :: rest) := by
    refine rustTrimEnd_eq_self _ d ?_ hdw
    rw [joinNl_getLast? _ lst hlms hlne]
    exact hdl
  have hfull : rustTrim (joinNl (hd0 :: rest))
      = joinNl (rustTrimStart hd0 :: rest) := by
    unfold rustTrim
    rw [hstep1, hstep2]
  rw [hfull]
  right
  refine ⟨rustTrimStart hd0 :: rest, rustTrimStart hd0, lst, rfl, rfl, hts0,
    rustTrimStart_idem hd0, ?_, hlms, hlne, ?_, ?_⟩
  · rw [rustTrim_trimStart]
    exact hpre0
  · intro m hm
    rcases List.mem_cons.mp hm with rfl | hm2
    · constructor
      · right
        refine ⟨rustTrimEnd_trimStart hd0 hte0 htr0, ?_, ?_⟩
        · rw [rustTrim_trimStart]
          exact htr0
        · rw [rustTrim_trimStart]
          exact hnoisy0
      · exact lineClean_of_infix hd0 _
          (hmem hd0 (List.mem_cons_self hd0 rest)).2
          (rustTrimStart_suffix hd0).isInfix
    · exact hmem m (List.mem_cons_of_mem hd0 hm2)
  · refine List.chain'_cons'.mpr ⟨?_, hchain.tail⟩
    intro y _
    exact fun hc => absurd hc hts0

theorem canonicalText_trim_joinNl : ∀ cs : List Str,
    (∀ m ∈ cs, LineOk m ∧ LineClean m) → List.Chain' blankSep cs →
    firstContentOk cs → CanonicalText (rustTrim (joinNl cs)) := by
  intro cs hmem hchain hfco
  cases cs with
  | nil => exact Or.inl rfl
  | cons m0 rest =>
    by_cases hm0 : m0 = []
    · subst hm0
      cases rest with
      | nil => exact Or.inl rfl
      | cons m1 rest' =>
        show CanonicalText (rustTrim ('\n' :: joinNl (m1 :: rest')))
        rw [rustTrim_cons_newline]
        have hm1 : m1 ≠ [] := (List.chain'_cons'.mp hchain).1 m1 (by simp) rfl
        have hfco1 : is_gemini_ui_prefix_line (rustTrim m1) = false := by
          have h2 : firstContentOk (m1 :: rest') := by
            simpa [firstContentOk] using hfco
          simpa [firstContentOk, hm1] using h2
        -- split on trailing blank of m1 :: rest'
        by_cases hlb : (m1 :: rest').getLast? = some []
        · have hlen : 2 ≤ (m1 :: rest').length := by
            cases rest' with
            | nil =>
              exfalso
              apply hm1
              simpa using hlb
            | cons a b => simp
          rw [joinNl_getLast_blank (m1 :: rest') hlb hlen,
            rustTrim_append_newline]
          have hrne : rest' ≠ [] := by
            intro hc
            apply hm1
            rw [hc] at hlb
            simpa using hlb
          have hdrop : (m1 :: rest').dropLast = m1 :: rest'.dropLast :=
            List.dropLast_cons_of_ne_nil hrne
          rw [hdrop]
          have hjunction : (m1 :: rest'.dropLast).getLast? ≠ some [] := by
            have hsplit : (m1 :: rest'.dropLast) ++ [[]] = m1 :: rest' := by
              rw [← hdrop]
              exact List.dropLast_append_getLast? [] hlb
            intro hc
            have hch2 : List.Chain' blankSep ((m1 :: rest'.dropLast) ++ [[]])
                := by
              rw [hsplit]
              exact hchain.tail
            have := (List.chain'_append.mp hch2).2.2 [] hc [] rfl
            exact this rfl rfl
          refine canonical_core m1 rest'.dropLast hm1 ?_ ?_ hfco1 hjunction
          · intro m hm
            apply hmem
            apply List.mem_cons_of_mem []
            rcases List.mem_cons.mp hm with rfl | hm2
            · exact List.mem_cons_self m rest'
            · exact List.mem_cons_of_mem m1
                ((List.dropLast_sublist rest').subset hm2)
          · refine List.Chain'.prefix hchain.tail ?_
            rw [← hdrop]
            exact List.dropLast_prefix _
        · exact canonical_core m1 rest' hm1
            (fun m hm => hmem m (List.mem_cons_of_mem [] hm))
            hchain.tail hfco1 hlb
    · have hfco0 : is_gemini_ui_prefix_line (rustTrim m0) = false := by
        simpa [firstContentOk, hm0] using hfco
      by_cases hlb : (m0 :: rest).getLast? = some []
      · have hrne : rest ≠ [] := by
          intro hc
          apply hm0
          rw [hc] at hlb
          simpa using hlb
        have hlen : 2 ≤ (m0 :: rest).length := by
          cases rest with
          | nil => exact absurd rfl hrne
          | cons a b => simp
        rw [joinNl_getLast_blank (m0 :: rest) hlb hlen,
          rustTrim_append_newline]
        have hdrop : (m0 :: rest).dropLast = m0 :: rest.dropLast :=
          List.dropLast_cons_of_ne_nil hrne
        rw [hdrop]
        have hjunction : (m0 :: rest.dropLast).getLast? ≠ some [] := by
          have hsplit : (m0 :: rest.dropLast) ++ [[]] = m0 :: rest := by
            rw [← hdrop]
            exact List.dropLast_append_getLast? [] hlb
          intro hc
          have hch2 : List.Chain' blankSep ((m0 :: rest.dropLast) ++ [[]])
              := by
            rw [hsplit]
            exact hchain
          have := (List.chain'_append.mp hch2).2.2 [] hc [] rfl
          exact this rfl rfl
        refine canonical_core m0 rest.dropLast hm0 ?_ ?_ hfco0 hjunction
        · intro m hm
          apply hmem
          rcases List.mem_cons.mp hm with rfl | hm2
          · exact List.mem_cons_self m rest
          · exact List.mem_cons_of_mem m0
              ((List.dropLast_sublist rest).subset hm2)
        · refine List.Chain'.prefix hchain ?_
          rw [← hdrop]
          exact List.dropLast_prefix _
      · exact canonical_core m0 rest hm0 hmem hchain hfco0 hlb

theorem canonicalText_normalize (x : Str) :
    CanonicalText (normalize_markdown_text x) := by
  obtain ⟨y, hy⟩ : ∃ y, normalize_step1 x = y := ⟨_, rfl⟩
  have htf : TagFree y := hy ▸ step1_tagFree x
  obtain ⟨lines, hlines⟩ : ∃ ls, rustLines y = ls := ⟨_, rfl⟩
  have hlinf : ∀ l ∈ lines, l <:+: y := hlines ▸ rustLines_infix_self y
  have hlnl : ∀ l ∈ lines, '\n' ∉ l := hlines ▸ rustLines_no_newline y htf.1
  obtain ⟨ks, hks⟩ : ∃ ks, keep_lines lines false = ks := ⟨_, rfl⟩
  obtain ⟨cs, hcs⟩ : ∃ cs, collapse_blank ks false = cs := ⟨_, rfl⟩
  have hgoal : normalize_markdown_text x = rustTrim (joinNl cs) := by
    unfold normalize_markdown_text
    rw [hy, hlines, hks, hcs]
  rw [hgoal]
  apply canonicalText_trim_joinNl
  · intro m hm
    rw [← hcs] at hm
    have hksm := mem_collapse_blank _ false m hm
    rw [← hks] at hksm
    rcases keep_lines_mem _ false m hksm with hnil | ⟨l, hl, hmeq, htr, hnn⟩
    · refine ⟨Or.inl hnil, ?_⟩
      rw [hnil]
      exact lineClean_nil
    · constructor
      · right
        refine ⟨?_, ?_, ?_⟩
        · rw [hmeq, rustTrimEnd_idem]
        · rw [hmeq]
          exact htr
        · rw [hmeq]
          exact hnn
      · have hminf : m <:+: l := by
          rw [hmeq]
          exact (rustTrimEnd_prefix_self l).isInfix
        exact ⟨fun hc => hlnl l hl (hminf.subset hc),
          tagFree_of_infix _ m htf (hminf.trans (hlinf l hl))⟩
  · rw [← hcs]
    exact (collapse_blank_chain ks false).1
  · have h1 : firstContentOk ks := by
      rw [← hks]
      exact keep_lines_firstContentOk lines
    rw [← hcs]
    exact collapse_blank_firstContentOk ks false h1


theorem normalize_markdown_text_idem (x : Str) :
    normalize_markdown_text (normalize_markdown_text x)
      = normalize_markdown_text x :=
  normalize_markdown_text_id_of_canonical _ (canonicalText_normalize x)

/-- A turn already in sanitized form: non-empty normalized content, and a
thought that is absent or itself a non-empty normalizer fixpoint. -/
def FixedTurn (t : NormalizedTurn) : Prop :=
  normalize_markdown_text t.content_markdown = t.content_markdown ∧
  t.content_markdown ≠ [] ∧
  ∀ v, t.thought_markdown = some v →
    normalize_markdown_text v = v ∧ v ≠ []

theorem foldl_accum_append {α β : Type} (f : List β → α → List β)
    (hf : ∀ (out : List β) (t : α), f out t = out ++ f [] t) :
    ∀ (ts : List α) (out : List β),
      ts.foldl f out = out ++ ts.foldl f [] := by
  intro ts
  induction ts with
  | nil => intro out; simp
  | cons t ts ih =>
    intro out
    rw [List.foldl_cons, ih (f out t), hf out t, List.append_assoc,
      List.foldl_cons, ih (f [] t)]

theorem sanitize_live_capture_turns_cons (source : Str) (t : NormalizedTurn)
    (ts : List NormalizedTurn) :
    sanitize_live_capture_turns source (t :: ts)
      = sanitize_live_capture_turns source [t]
        ++ sanitize_live_capture_turns source ts := by
  unfold sanitize_live_capture_turns
  rw [List.foldl_cons, List.foldl_cons, List.foldl_nil]
  refine foldl_accum_append _ ?_ ts _
  intro out turn
  dsimp only
  repeat' split
  all_goals simp

theorem sanitize_single_fix (source : Str) (hsrc : source ≠ str "gemini")
    (t t' : NormalizedTurn)
    (ht' : t' ∈ sanitize_live_capture_turns source [t]) : FixedTurn t' := by
  unfold sanitize_live_capture_turns at ht'
  rw [List.foldl_cons, List.foldl_nil] at ht'
  dsimp only at ht'
  have hgf : (source = str "gemini") = False := eq_false hsrc
  simp only [hgf, false_and, if_false] at ht'
  cases hth0 : t.thought_markdown with
  | none =>
    rw [hth0] at ht'
    obtain ⟨nc, hnc⟩ : ∃ nc, normalize_markdown_text t.content_markdown = nc :=
      ⟨_, rfl⟩
    rw [hnc] at ht'
    by_cases hdrop : nc = [] ∧
        (t.attachments.map (fun items => !items.isEmpty)).getD false = false
    · rw [if_pos hdrop] at ht'
      cases ht'
    · rw [if_neg hdrop] at ht'
      simp only [List.nil_append, List.mem_singleton] at ht'
      subst ht'
      by_cases hnc0 : nc = []
      · refine ⟨?_, ?_, ?_⟩
        · rw [if_pos hnc0]
          show normalize_markdown_text (str "（仅附件消息）")
            = str "（仅附件消息）"
          decide
        · rw [if_pos hnc0]
          show str "（仅附件消息）" ≠ []
          decide
        · intro v hv
          cases hv
      · refine ⟨?_, ?_, ?_⟩
        · rw [if_neg hnc0]
          show normalize_markdown_text nc = nc
          rw [← hnc]
          exact normalize_markdown_text_idem t.content_markdown
        · rw [if_neg hnc0]
          exact hnc0
        · intro v hv
          cases hv
  | some v0 =>
    rw [hth0] at ht'
    obtain ⟨nc, hnc⟩ : ∃ nc, normalize_markdown_text t.content_markdown = nc :=
      ⟨_, rfl⟩
    obtain ⟨nv, hnv⟩ : ∃ nv, normalize_markdown_text v0 = nv := ⟨_, rfl⟩
    rw [hnc] at ht'
    simp only [hnv] at ht'
    by_cases hdrop : nc = [] ∧
        (t.attachments.map (fun items => !items.isEmpty)).getD false = false
    · rw [if_pos hdrop] at ht'
      cases ht'
    · rw [if_neg hdrop] at ht'
      simp only [List.nil_append, List.mem_singleton] at ht'
      subst ht'
      have hcontent : ∀ nc2 : Str,
          (if nc = [] then str "（仅附件消息）" else nc) = nc2 →
          normalize_markdown_text nc2 = nc2 ∧ nc2 ≠ [] := by
        intro nc2 h2
        by_cases hnc0 : nc = []
        · rw [if_pos hnc0] at h2
          rw [← h2]
          exact ⟨by decide, by decide⟩
        · rw [if_neg hnc0] at h2
          rw [← h2]
          constructor
          · show normalize_markdown_text nc = nc
            rw [← hnc]
            exact normalize_markdown_text_idem t.content_markdown
          · exact hnc0
      refine ⟨(hcontent _ rfl).1, (hcontent _ rfl).2, ?_⟩
      intro v hv
      revert hv
      by_cases hnv0 : nv = []
      · rw [if_pos hnv0]
        intro hv
        cases hv
      · rw [if_neg hnv0]
        intro hv
        injection hv with hv2
        subst hv2
        constructor
        · show normalize_markdown_text nv = nv
          rw [← hnv]
          exact normalize_markdown_text_idem v0
        · exact hnv0

theorem sanitize_mem_fixed (source : Str) (hsrc : source ≠ str "gemini") :
    ∀ ts : List NormalizedTurn,
    ∀ t2 ∈ sanitize_live_capture_turns source ts, FixedTurn t2 := by
  intro ts
  induction ts with
  | nil =>
    intro t2 h
    have h2 : t2 ∈ ([] : List NormalizedTurn) := h
    cases h2
  | cons t ts ih =>
    intro t2 h
    rw [sanitize_live_capture_turns_cons] at h
    rcases List.mem_append.mp h with h1 | h2
    · exact sanitize_single_fix source hsrc t t2 h1
    · exact ih t2 h2

theorem sanitize_fixed_id (source : Str) (hsrc : source ≠ str "gemini") :
    ∀ ts : List NormalizedTurn, (∀ t ∈ ts, FixedTurn t) →
    sanitize_live_capture_turns source ts = ts := by
  intro ts
  induction ts with
  | nil => intro _; rfl
  | cons t ts ih =>
    intro hfix
    rw [sanitize_live_capture_turns_cons]
    have hsingle : sanitize_live_capture_turns source [t] = [t] := by
      obtain ⟨hc1, hc2, hth⟩ := hfix t (List.mem_cons_self t ts)
      unfold sanitize_live_capture_turns
      rw [List.foldl_cons, List.foldl_nil]
      dsimp only
      have hgf : (source = str "gemini") = False := eq_false hsrc
      simp only [hgf, false_and, if_false]
      cases hth0 : t.thought_markdown with
      | none =>
        simp only [hc1]
        rw [if_neg (fun hcon => hc2 hcon.1), if_neg hc2, ← hth0]
        simp
      | some v =>
        obtain ⟨hv1, hv2⟩ := hth v hth0
        simp only [hv1, hc1]
        rw [if_neg (fun hcon => hc2 hcon.1), if_neg hc2, if_neg hv2, ← hth0]
        simp
    rw [hsingle, ih (fun x hx => hfix x (List.mem_cons_of_mem t hx))]
    rfl

/-! ## Theorems -/

/-- C6: for every parent argument, `move_folder` on the reserved id
`"uncategorized"` returns an error and leaves the state unchanged, and so
does `delete_folder`. -/
theorem reserved_folder_unmovable_undeletable (db : DbState) (now : Str)
    (p : Option Str) :
    (move_folder now db uncategorizedFolderId p).1 = db ∧
    (move_folder now db uncategorizedFolderId p).2.isSome = true ∧
    (delete_folder now db uncategorizedFolderId).1 = db ∧
    (delete_folder now db uncategorizedFolderId).2.isSome = true := by
  refine ⟨?_, ?_, ?_, ?_⟩ <;> simp [move_folder, delete_folder]

/-- C8: `truncate_error` is not total — on a 301-byte input whose byte 300
is not a character boundary the byte slice `error[..300]` panics (modelled
as `none`); the input is 299 `'a'` bytes followed by one two-byte
character. -/
theorem truncate_error_panics_inside_multibyte_char :
    truncate_error c8FailingInput = none ∧ strByteLen c8FailingInput = 301 := by
  constructor <;> decide

/-- C1 counterexample: ingestion persists a declared attachment whose input
declares `status = "cached"` with `sha256` and `size_bytes` NULL, violating
the claimed invariant. -/
theorem declared_cached_attachment_violates_invariant :
    c1CounterRow.status = str "cached" ∧ c1CounterRow.sha256 = none ∧
    c1CounterRow.size_bytes = none ∧ ¬ attachmentInvariant c1CounterRow := by
  refine ⟨rfl, rfl, rfl, fun h => ?_⟩
  exact (h.1 rfl).1 rfl

/-- C1 (amended): the invariant `cached → sha256 present ∧ size_bytes ≥ 0`
and `failed → error present` holds for every attachment row produced by
ingestion whose input does not declare status `cached` or `failed` (the
default is `remote_only`), for every row produced by inline or named-file
extraction, and after every cache-worker transition (`mark_attachment_failed`
when it returns, `mark_attachment_cached` with a byte count, and the kind
update, which also preserves it). -/
theorem attachment_invariant_holds_amended
    (a : NormalizedAttachment) (id msg conv url now k e lp sha : Str)
    (mime : Option Str) (bytes : List Nat) (r : Attachment)
    (h : a.status = none ∨
      (a.status ≠ some (str "cached") ∧ a.status ≠ some (str "failed"))) :
    attachmentInvariant (declared_attachment_row id msg conv url a now) ∧
    attachmentInvariant (extracted_attachment_row id msg conv k url mime now) ∧
    (∀ r', mark_attachment_failed r e = some r' → attachmentInvariant r') ∧
    attachmentInvariant
      (mark_attachment_cached r lp mime (Int.ofNat bytes.length) sha) ∧
    (attachmentInvariant r → attachmentInvariant (update_attachment_kind r k)) := by
  have hdecl : (declared_attachment_row id msg conv url a now).status
      = a.status.getD (str "remote_only") := rfl
  refine ⟨⟨?_, ?_⟩, ⟨?_, ?_⟩, ?_, ⟨?_, ?_⟩, ?_⟩
  · intro hst
    exfalso
    rw [hdecl] at hst
    rcases ha : a.status with _ | s
    · rw [ha] at hst
      simp only [Option.getD_none] at hst
      exact absurd hst (by decide)
    · rw [ha] at hst
      simp only [Option.getD_some] at hst
      rcases h with h | ⟨h1, _⟩
      · rw [h] at ha
        cases ha
      · exact h1 (ha.trans (by rw [hst]))
  · intro hst
    exfalso
    rw [hdecl] at hst
    rcases ha : a.status with _ | s
    · rw [ha] at hst
      simp only [Option.getD_none] at hst
      exact absurd hst (by decide)
    · rw [ha] at hst
      simp only [Option.getD_some] at hst
      rcases h with h | ⟨_, h2⟩
      · rw [h] at ha
        cases ha
      · exact h2 (ha.trans (by rw [hst]))
  · intro hst
    exact absurd (show str "remote_only" = str "cached" from hst) (by decide)
  · intro hst
    exact absurd (show str "remote_only" = str "failed" from hst) (by decide)
  · intro r' hr'
    rcases Option.map_eq_some'.mp hr' with ⟨e', _, rfl⟩
    refine ⟨fun hst => ?_, fun _ => by simp⟩
    exact absurd (show str "failed" = str "cached" from hst) (by decide)
  · intro _
    refine ⟨by simp [mark_attachment_cached], Int.ofNat bytes.length, rfl, ?_⟩
    exact Int.ofNat_nonneg _
  · intro hst
    exact absurd (show str "cached" = str "failed" from hst) (by decide)
  · intro hr
    exact ⟨fun hst => hr.1 hst, fun hst => hr.2 hst⟩

/-- Closed witness for the amended C1 invariant at a concrete declared
attachment, failure message, cache transition and kind update. -/
theorem attachment_invariant_holds_amended_witness :
    attachmentInvariant (declared_attachment_row (str "a1") (str "m1")
      (str "c1") (str "https://example.com/a.png")
      { kind := str "image", original_url := str "https://example.com/a.png",
        mime := none, status := none } (str "t0")) ∧
    attachmentInvariant (extracted_attachment_row (str "a2") (str "m1")
      (str "c1") (str "image") (str "https://example.com/b.png") none
      (str "t0")) ∧
    (∀ r', mark_attachment_failed c5Row (str "boom") = some r' →
      attachmentInvariant r') ∧
    attachmentInvariant (mark_attachment_cached c5Row (str "assets/x") none
      (Int.ofNat [0].length) (str "00")) ∧
    (attachmentInvariant c5Row →
      attachmentInvariant (update_attachment_kind c5Row (str "file"))) :=
  attachment_invariant_holds_amended _ _ _ _ _ _ _ _ _ _ _ _ _ (Or.inl rfl)

/-- C5 counterexample: a persisted `image` attachment row (as created by
ingestion, with the worker's download preconditions satisfied) is demoted
to `file` by the cache worker's re-classification when the response
`Content-Type` does not corroborate the image kind. -/
theorem cache_worker_demotes_image_to_file :
    c5Row.kind = str "image" ∧
    is_http_or_https_url c5Url = true ∧
    classify_attachment_kind (normalize_attachment_kind c5Row.kind) c5Url
      c5Row.mime ≠ str "file" ∧
    c5Demoted.kind = str "file" := by
  refine ⟨by decide, by decide, by decide, by decide⟩

/-- C5 (amended): the kind promotion performed on `open_conversation` never
demotes — a row whose kind is not `file` is returned unchanged, and a `file`
row is only ever changed to `image` or `pdf`; the table-level operation
applies exactly this per-row step to the conversation's rows. -/
theorem promote_attachment_kinds_only_upgrades (rows : List Attachment)
    (cid : Str) (a : Attachment) :
    promote_attachment_kinds cid rows =
      rows.map (fun r => if r.conversation_id = cid then promote_row r else r) ∧
    (a.kind ≠ str "file" → promote_row a = a) ∧
    ((promote_row a).kind = a.kind ∨
      (a.kind = str "file" ∧
        ((promote_row a).kind = str "image" ∨ (promote_row a).kind = str "pdf"))) := by
  refine ⟨rfl, ?_, ?_⟩
  · intro hk
    simp [promote_row, hk]
  · by_cases hk : a.kind = str "file"
    · unfold promote_row
      rw [if_pos hk]
      split_ifs with h1 h2
      · left; rfl
      · right
        refine ⟨hk, ?_⟩
        simpa using h2
      · left; rfl
    · left
      simp [promote_row, hk]

/-- A concrete persisted `file` attachment row used by the C5 witness. -/
def promoteWitnessRow : Attachment :=
  extracted_attachment_row (str "a9") (str "m9") (str "c9") (str "file")
    (str "https://example.com/doc.pdf") none (str "t0")

/-- Closed witness for the C5 amended statement: the theorem applied to a
concrete `file` row. -/
theorem promote_attachment_kinds_only_upgrades_witness :
    promote_attachment_kinds (str "c9") [] = [] ∧
    ((promote_row promoteWitnessRow).kind = promoteWitnessRow.kind ∨
      (promoteWitnessRow.kind = str "file" ∧
        ((promote_row promoteWitnessRow).kind = str "image" ∨
          (promote_row promoteWitnessRow).kind = str "pdf"))) :=
  ⟨(promote_attachment_kinds_only_upgrades [] (str "c9") promoteWitnessRow).1,
    (promote_attachment_kinds_only_upgrades [] (str "c9") promoteWitnessRow).2.2⟩

/-- C2: `compute_fingerprint` depends only on the source, the optional
source conversation id, and the set of `(role, content_markdown)` pairs of
the turns — two normalized conversations agreeing on those produce the same
fingerprint regardless of turn order and of per-turn metadata. -/
theorem compute_fingerprint_turn_order_independent
    (c1 c2 : NormalizedConversation)
    (hs : c1.source = c2.source)
    (hid : c1.source_conversation_id = c2.source_conversation_id)
    (hset : ∀ rc : Str × Str,
      rc ∈ c1.turns.map (fun t => (t.role, t.content_markdown)) ↔
      rc ∈ c2.turns.map (fun t => (t.role, t.content_markdown))) :
    compute_fingerprint c1 = compute_fingerprint c2 := by
  have hmap : ∀ c : NormalizedConversation,
      c.turns.map (fun t =>
        hexDigest (sha256Bytes (utf8Bytes t.role ++ utf8Bytes t.content_markdown)))
      = (c.turns.map (fun t => (t.role, t.content_markdown))).map
          (fun rc => hexDigest (sha256Bytes (utf8Bytes rc.1 ++ utf8Bytes rc.2))) := by
    intro c
    rw [List.map_map]
    rfl
  have hmem : ∀ x,
      x ∈ c1.turns.map (fun t =>
        hexDigest (sha256Bytes (utf8Bytes t.role ++ utf8Bytes t.content_markdown))) ↔
      x ∈ c2.turns.map (fun t =>
        hexDigest (sha256Bytes (utf8Bytes t.role ++ utf8Bytes t.content_markdown))) := by
    intro x
    rw [hmap c1, hmap c2]
    constructor
    · intro hx
      rcases List.mem_map.mp hx with ⟨rc, hrc, hxeq⟩
      exact List.mem_map.mpr ⟨rc, (hset rc).mp hrc, hxeq⟩
    · intro hx
      rcases List.mem_map.mp hx with ⟨rc, hrc, hxeq⟩
      exact List.mem_map.mpr ⟨rc, (hset rc).mpr hrc, hxeq⟩
  have hperm :
      (c1.turns.map (fun t =>
        hexDigest (sha256Bytes (utf8Bytes t.role ++ utf8Bytes t.content_markdown)))).dedup.Perm
      (c2.turns.map (fun t =>
        hexDigest (sha256Bytes (utf8Bytes t.role ++ utf8Bytes t.content_markdown)))).dedup := by
    refine (List.perm_ext_iff_of_nodup (List.nodup_dedup _) (List.nodup_dedup _)).mpr ?_
    intro x
    rw [List.mem_dedup, List.mem_dedup]
    exact hmem x
  haveI hanti : IsAntisymm Str (fun a b => lexLe a b = true) :=
    ⟨fun a b hab hba =>
      le_antisymm (of_decide_eq_true hab) (of_decide_eq_true hba)⟩
  haveI : IsTrans Str (fun a b => lexLe a b = true) :=
    ⟨fun a b c hab hbc => decide_eq_true
      (le_trans (of_decide_eq_true hab) (of_decide_eq_true hbc))⟩
  haveI : IsTotal Str (fun a b => lexLe a b = true) :=
    ⟨fun a b => by
      rcases le_total a b with h | h
      · exact Or.inl (decide_eq_true h)
      · exact Or.inr (decide_eq_true h)⟩
  have hsorted :
      List.insertionSort (fun a b => lexLe a b = true)
        ((c1.turns.map (fun t =>
          hexDigest (sha256Bytes (utf8Bytes t.role ++ utf8Bytes t.content_markdown)))).dedup)
      = List.insertionSort (fun a b => lexLe a b = true)
        ((c2.turns.map (fun t =>
          hexDigest (sha256Bytes (utf8Bytes t.role ++ utf8Bytes t.content_markdown)))).dedup) := by
    refine @List.eq_of_perm_of_sorted Str (fun a b => lexLe a b = true) hanti _ _
      (((List.perm_insertionSort _ _).trans hperm).trans
        (List.perm_insertionSort _ _).symm)
      ?_ ?_
    · exact List.sorted_insertionSort _ _
    · exact List.sorted_insertionSort _ _
  simp only [compute_fingerprint]
  rw [hs, hid, hsorted]

/-- First concrete conversation for the C2 witness. -/
def c2ConvA : NormalizedConversation :=
  { source := str "chatgpt", source_conversation_id := some (str "abc"),
    title := str "t", summary := none, created_at := none, updated_at := none,
    turns := [
      { role := str "user", content_markdown := str "hello",
        thought_markdown := none, attachments := none, model := none,
        timestamp := some (str "2024-01-01"), token_count := none },
      { role := str "assistant", content_markdown := str "hi",
        thought_markdown := none, attachments := none, model := none,
        timestamp := none, token_count := some 2 }],
    meta := none }

/-- Second concrete conversation for the C2 witness: reordered turns and
different per-turn metadata. -/
def c2ConvB : NormalizedConversation :=
  { source := str "chatgpt", source_conversation_id := some (str "abc"),
    title := str "other title", summary := some (str "s"),
    created_at := some (str "2024-02-02"), updated_at := none,
    turns := [
      { role := str "assistant", content_markdown := str "hi",
        thought_markdown := some (str "pondering"), attachments := none,
        model := some (str "m"), timestamp := none, token_count := none },
      { role := str "user", content_markdown := str "hello",
        thought_markdown := none, attachments := none, model := none,
        timestamp := none, token_count := none }],
    meta := none }

/-- Closed witness for C2: two concrete conversations with the same turn
pair set in opposite orders and different per-turn metadata share a
fingerprint. -/
theorem compute_fingerprint_turn_order_independent_witness :
    compute_fingerprint c2ConvA = compute_fingerprint c2ConvB := by
  refine compute_fingerprint_turn_order_independent c2ConvA c2ConvB rfl rfl ?_
  intro rc
  show rc ∈ [(str "user", str "hello"), (str "assistant", str "hi")] ↔
    rc ∈ [(str "assistant", str "hi"), (str "user", str "hello")]
  simp only [List.mem_cons, List.not_mem_nil, or_false]
  tauto

/-- C3 counterexample: re-importing the same conversation with strategy
`skip` returns counters `{imported: 0, skipped: 1, conflicts: 1}` but does
not leave the database bit-identical — the unconditional `imports` audit
insert adds a row, so the state after the second call differs. -/
theorem skip_reimport_adds_audit_row :
    c3Run2.2 = { imported := 0, skipped := 1, conflicts := 1 } ∧
    c3Run2.1.imports.length = 2 ∧ c3Db1.imports.length = 1 ∧
    c3Run2.1 ≠ c3Db1 := by
  have h2 : c3Run2.1.imports.length = 2 := by rfl
  have h1 : c3Db1.imports.length = 1 := by rfl
  refine ⟨by rfl, h2, h1, fun h => ?_⟩
  rw [h, h1] at h2
  cases h2

/-- C3 (amended): re-importing a conversation that conflicts (by source
ref when `source_conversation_id` is present, otherwise by fingerprint)
with strategy `skip` returns `{imported: 0, skipped: 1, conflicts: 1}` and
changes the database only by appending one `imports` audit row recording
those counters; every other table is left bit-identical. -/
theorem skip_reimport_counters_and_audit_only (fresh : Nat → Str) (now : Str)
    (db : DbState) (c : NormalizedConversation)
    (hunc : db.folders.any (fun f => f.id == uncategorizedFolderId) = true)
    (hturns : c.turns ≠ [])
    (hconf : (∃ sid p, c.source_conversation_id = some sid ∧
        find_existing_by_source_ref db c.source sid = some p) ∨
      (c.source_conversation_id = none ∧
        ∃ p, find_existing_by_fingerprint db (compute_fingerprint c) = some p)) :
    import_files fresh now db
      { conversations := [c], strategy := str "skip", folder_id := none }
      = ({ db with imports := db.imports ++
            [{ id := fresh 0, source := str "batch", imported_count := 0,
               skipped_count := 1, conflict_count := 1, created_at := now }] },
         { imported := 0, skipped := 1, conflicts := 1 }) := by
  have hens : ensure_system_folders now db = db := by
    unfold ensure_system_folders
    rw [if_pos hunc]
  unfold import_files
  rw [hens]
  simp only [List.foldl_cons, List.foldl_nil]
  unfold import_one_conversation
  rw [if_neg hturns]
  rcases hconf with ⟨sid, p, hsid, hfound⟩ | ⟨hsid, p, hfound⟩
  · rw [hsid]
    dsimp only
    rw [hfound]
    dsimp only
    rw [if_pos rfl]
    simp
  · rw [hsid]
    dsimp only
    rw [hfound]
    dsimp only
    rw [if_pos rfl]
    simp

/-- Closed witness for the amended C3 statement: the theorem applied to
the state after the concrete first import. -/
theorem skip_reimport_counters_and_audit_only_witness :
    import_files (freshTag 'b') (str "t2") c3Db1
      { conversations := [c3Conv], strategy := str "skip", folder_id := none }
      = ({ c3Db1 with imports := c3Db1.imports ++
            [{ id := freshTag 'b' 0, source := str "batch",
               imported_count := 0, skipped_count := 1, conflict_count := 1,
               created_at := str "t2" }] },
         { imported := 0, skipped := 1, conflicts := 1 }) :=
  skip_reimport_counters_and_audit_only (freshTag 'b') (str "t2") c3Db1 c3Conv
    (by decide) (by decide)
    (Or.inl ⟨str "abc", (str "a", str "t"), rfl, by rfl⟩)

/-- C4: after an overwrite replaces the conversation, the old FTS rows,
message rows and conversation row are gone, but the old attachment row is
still present and still references the deleted conversation id — the
`ON DELETE CASCADE` clauses never fire because `PRAGMA foreign_keys = ON`
is executed only on the migration connection (SQLite's pragma is
per-connection and defaults to OFF), so overwrite orphans attachment
rows. -/
theorem overwrite_orphans_attachment_rows :
    c4Db1.attachments = [c4OldAtt] ∧
    c4OldAtt.conversation_id = str "c-old" ∧
    (c4Db1.conversations.all (fun conv => conv.id != str "c-old")) = true ∧
    (c4Db1.messages.all (fun m => m.conversation_id != str "c-old")) = true ∧
    (c4Db1.messages_fts.all (fun r => r.conversation_id != str "c-old")) = true ∧
    (c4Db1.conversations.any
      (fun conv => conv.id == c4OldAtt.conversation_id)) = false := by
  refine ⟨by rfl, by rfl, by decide, by decide, by decide, by decide⟩

/-- C10: resolving a source-ref conflict with strategy `duplicate` mutates
both identifiers of the new record — `#dup-<uuid>` appended to the source
conversation id and `-dup-<uuid>` appended to the fingerprint — so the
inserted fingerprint differs from the incoming one, and, as long as the
generated suffix is fresh (the UUID assumption), the unique fingerprint
index is preserved even when the matched row carries the incoming
fingerprint. -/
theorem duplicate_on_source_ref_mutates_both_identifiers (fresh : Nat → Str)
    (now : Str) (db : DbState) (c : NormalizedConversation) (sid : Str)
    (ex : Str × Str)
    (hunc : db.folders.any (fun f => f.id == uncategorizedFolderId) = true)
    (hturns : c.turns ≠ [])
    (hsid : c.source_conversation_id = some sid)
    (hfound : find_existing_by_source_ref db c.source sid = some ex)
    (hfresh : ∀ conv ∈ db.conversations,
      conv.fingerprint ≠ compute_fingerprint c ++ str "-dup-" ++ fresh 1) :
    ∃ newRow : Conversation,
      (import_files fresh now db
          { conversations := [c], strategy := str "duplicate", folder_id := none }).1.conversations
        = db.conversations ++ [newRow] ∧
      newRow.source_conversation_id = some (sid ++ str "#dup-" ++ fresh 0) ∧
      newRow.fingerprint = compute_fingerprint c ++ str "-dup-" ++ fresh 1 ∧
      newRow.fingerprint ≠ compute_fingerprint c ∧
      (∀ conv ∈ db.conversations, conv.fingerprint ≠ newRow.fingerprint) ∧
      ((db.conversations.map (fun x => x.fingerprint)).Nodup →
        ((import_files fresh now db
            { conversations := [c], strategy := str "duplicate", folder_id := none }).1.conversations.map
              (fun x => x.fingerprint)).Nodup) := by
  have hens : ensure_system_folders now db = db := by
    unfold ensure_system_folders
    rw [if_pos hunc]
  have hconvs :
      (import_files fresh now db
          { conversations := [c], strategy := str "duplicate", folder_id := none }).1.conversations
      = db.conversations ++
        [{ id := fresh 2, source := c.source,
           source_conversation_id := some (sid ++ str "#dup-" ++ fresh 0),
           folder_id := some uncategorizedFolderId, title := c.title,
           summary := c.summary, created_at := now, updated_at := now,
           fingerprint := compute_fingerprint c ++ str "-dup-" ++ fresh 1,
           meta_json := c.meta.getD (str "\x7b\x7d") }] := by
    unfold import_files
    rw [hens]
    simp only [List.foldl_cons, List.foldl_nil]
    unfold import_one_conversation
    rw [if_neg hturns, hsid]
    dsimp only
    rw [hfound]
    dsimp only
    rw [if_neg (by decide), if_neg (by decide), if_pos rfl]
    dsimp only
    rw [insert_new_conversation_conversations]
    norm_num [Option.map, Option.orElse]
  refine ⟨_, hconvs, rfl, rfl, ?_, ?_, ?_⟩
  · exact (ne_append_append _ _ _ (by decide)).symm
  · intro conv hconv
    exact hfresh conv hconv
  · intro hnd
    rw [hconvs, List.map_append]
    rw [List.nodup_append]
    refine ⟨hnd, List.nodup_singleton _, ?_⟩
    intro a ha hb
    simp only [List.map_cons, List.map_nil, List.mem_singleton] at hb
    rcases List.mem_map.mp ha with ⟨conv, hconv, hfa⟩
    exact hfresh conv hconv (by rw [hfa, hb])

/-- Closed witness for C10 at a concrete state whose matched existing row
carries exactly the incoming conversation's fingerprint. -/
theorem duplicate_on_source_ref_mutates_both_identifiers_witness :
    ∃ newRow : Conversation,
      (import_files (freshTag 'd') (str "t1") c10Db
          { conversations := [c10Conv], strategy := str "duplicate", folder_id := none }).1.conversations
        = c10Db.conversations ++ [newRow] ∧
      newRow.source_conversation_id
        = some (str "abc" ++ str "#dup-" ++ freshTag 'd' 0) ∧
      newRow.fingerprint
        = compute_fingerprint c10Conv ++ str "-dup-" ++ freshTag 'd' 1 ∧
      newRow.fingerprint ≠ compute_fingerprint c10Conv ∧
      (∀ conv ∈ c10Db.conversations, conv.fingerprint ≠ newRow.fingerprint) ∧
      ((c10Db.conversations.map (fun x => x.fingerprint)).Nodup →
        ((import_files (freshTag 'd') (str "t1") c10Db
            { conversations := [c10Conv], strategy := str "duplicate", folder_id := none }).1.conversations.map
              (fun x => x.fingerprint)).Nodup) :=
  duplicate_on_source_ref_mutates_both_identifiers (freshTag 'd') (str "t1")
    c10Db c10Conv (str "abc") (str "c0", str "t") (by decide) (by decide) rfl
    (by rfl)
    (by
      intro conv hconv
      have : conv = c10Existing := by
        simpa [c10Db] using hconv
      rw [this]
      exact ne_append_append _ _ _ (by decide))

/-- C7: with an allowed or absent Origin, a live-import request without the
`X-AI-History-Token` header is answered `401 missing_token`, and one whose
token is not an unexpired session is answered
`401 invalid_or_expired_token`; in both cases the database is returned
untouched (no import happens). -/
theorem bridge_rejects_missing_and_invalid_token (origin token : Option Str)
    (sessions : List (Str × Nat)) (nowInstant : Nat) (fresh : Nat → Str)
    (now : Str) (db : DbState) (payload : LiveCaptureRequest)
    (h : allow_origin origin = true) :
    (token = none →
      import_live origin token sessions nowInstant fresh now db payload
        = (401, str "missing_token", db)) ∧
    (∀ t, token = some t → verify_session nowInstant sessions t = false →
      import_live origin token sessions nowInstant fresh now db payload
        = (401, str "invalid_or_expired_token", db)) := by
  constructor
  · intro ht
    rw [ht]
    unfold import_live
    rw [if_neg (by rw [h]; simp)]
  · intro t ht hv
    rw [ht]
    unfold import_live
    rw [if_neg (by rw [h]; simp)]
    dsimp only
    rw [if_pos (by rw [hv]; simp)]

/-- Closed witness for C7: a request with no token and one with an expired
token, both with an extension Origin. -/
theorem bridge_rejects_missing_and_invalid_token_witness :
    import_live (some (str "chrome-extension://abc")) none
      [(str "tok", 3)] 5 (freshTag 'x') (str "t0") emptyDb c7Payload
      = (401, str "missing_token", emptyDb) ∧
    import_live (some (str "chrome-extension://abc")) (some (str "tok"))
      [(str "tok", 3)] 5 (freshTag 'x') (str "t0") emptyDb c7Payload
      = (401, str "invalid_or_expired_token", emptyDb) :=
  ⟨(bridge_rejects_missing_and_invalid_token (some (str "chrome-extension://abc"))
      none [(str "tok", 3)] 5 (freshTag 'x') (str "t0") emptyDb c7Payload
      (by decide)).1 rfl,
   (bridge_rejects_missing_and_invalid_token (some (str "chrome-extension://abc"))
      (some (str "tok")) [(str "tok", 3)] 5 (freshTag 'x') (str "t0") emptyDb
      c7Payload (by decide)).2 (str "tok") rfl (by decide)⟩

/-- C9 counterexample: the sanitizer is not idempotent. For a gemini
assistant turn whose boilerplate paragraph is interrupted by a UI-noise
line, the first pass removes the noise line (keeping the turn), which
makes the paragraph match the boilerplate list, so the second pass drops
the whole turn. -/
theorem sanitize_live_capture_turns_not_idempotent :
    sanitize_live_capture_turns (str "gemini")
      (sanitize_live_capture_turns (str "gemini") [c9Turn])
      ≠ sanitize_live_capture_turns (str "gemini") [c9Turn] := by
  decide

/-- C9 amended: the live-capture sanitizer is idempotent for every
non-gemini source. -/
theorem sanitize_live_capture_turns_idempotent_non_gemini (source : Str)
    (turns : List NormalizedTurn) (hsrc : source ≠ str "gemini") :
    sanitize_live_capture_turns source
        (sanitize_live_capture_turns source turns)
      = sanitize_live_capture_turns source turns :=
  sanitize_fixed_id source hsrc _ (sanitize_mem_fixed source hsrc turns)

theorem sanitize_live_capture_turns_idempotent_non_gemini_witness :
    str "chatgpt" ≠ str "gemini" ∧
    sanitize_live_capture_turns (str "chatgpt")
        (sanitize_live_capture_turns (str "chatgpt") [helloTurn])
      = sanitize_live_capture_turns (str "chatgpt") [helloTurn] :=
  ⟨by decide, sanitize_live_capture_turns_idempotent_non_gemini
    (str "chatgpt") [helloTurn] (by decide)⟩

end AIHistory
